import Mathlib

/-!
Verification of the grid/table engine of `pymarthe/mfield.py`.

The Python module manipulates numpy record arrays with fields
`layer, inest, i, j, x, y, value` (one row per grid cell).  We embed a
record array as a `List Row`, with integer ids as `Nat` (the code only
ever produces non-negative ids) and floating point data as `ℚ`
(the operations verified here are exact: comparisons, copies and
membership tests in sentinel lists; no rounding behaviour is involved).

Functions keep the names of the Python methods they embed
(`get_masked`, `get_data`, `to_grids`, `grids2rec`, `load_field`, ...).
`np.unique` (sorted distinct values) is embedded as `npUnique`,
numpy reshape of a (layer, inest) group as `reshapeGroup`, and boolean
mask indexing as `maskFilter` / `applyMaskedAssign`.
-/

/-- One row of the flat field table: a single grid cell. -/
structure Row where
  layer : Nat
  inest : Nat
  i : Nat
  j : Nat
  x : ℚ
  y : ℚ
  value : ℚ
deriving DecidableEq

instance : Inhabited Row := ⟨⟨0, 0, 0, 0, 0, 0, 0⟩⟩

/-- `dmv = [-9999., 0., 9999]`, the module-level default field masked values. -/
def dmv : List ℚ := [-9999, 0, 9999]

/-- Python extended slice `l[::2]` (every second element, starting at index 0). -/
def everySecond : List α → List α
  | [] => []
  | [a] => [a]
  | a :: _ :: t => a :: everySecond t

/-- The geometry part of a row: every column except `value`. -/
def geomRow (r : Row) : Nat × Nat × Nat × Nat × ℚ × ℚ :=
  (r.layer, r.inest, r.i, r.j, r.x, r.y)

/-- The geometry columns of a whole table. -/
def geom (data : List Row) : List (Nat × Nat × Nat × Nat × ℚ × ℚ) :=
  data.map geomRow

/-- `np.unique`: the sorted list of distinct values of a 1D array. -/
def npUnique [LinearOrder α] (l : List α) : List α :=
  List.insertionSort (· ≤ ·) l.dedup

theorem mem_npUnique [LinearOrder α] {l : List α} {a : α} :
    a ∈ npUnique l ↔ a ∈ l := by
  rw [npUnique, List.mem_insertionSort, List.mem_dedup]

theorem npUnique_sorted [LinearOrder α] (l : List α) :
    (npUnique l).Sorted (· ≤ ·) :=
  List.sorted_insertionSort _ _

theorem npUnique_nodup [LinearOrder α] (l : List α) : (npUnique l).Nodup :=
  ((List.perm_insertionSort _ _).nodup_iff).mpr l.nodup_dedup

/-- `npUnique` is the unique strictly sorted list with the same members. -/
theorem npUnique_eq_of_sorted [LinearOrder α] {l s : List α}
    (hs : s.Sorted (· < ·)) (hmem : ∀ a, a ∈ l ↔ a ∈ s) :
    npUnique l = s := by
  have hnodup : s.Nodup := hs.nodup
  have hperm : List.Perm (npUnique l) s := by
    rw [List.perm_ext_iff_of_nodup (npUnique_nodup l) hnodup]
    intro a
    rw [mem_npUnique]
    exact hmem a
  exact List.eq_of_perm_of_sorted hperm (npUnique_sorted l) (hs.le_of_lt)

/-! ### `MartheField.get_data` -/

/-- The `layers`/`inests` resolution at the top of `get_data`:
`None` means all distinct values present in the data (`np.unique`). -/
def resolveIds (data : List Row) (proj : Row → Nat) : Option (List Nat) → List Nat
  | none => npUnique (data.map proj)
  | some ls => ls

/-- The boolean row mask computed by `get_data`
(`np.logical_and.reduce([isin(layer), isin(inest), ~isin(value, mv)])`). -/
def getDataMask (data : List Row) (layer? inest? : Option (List Nat))
    (mv : List ℚ) : List Bool :=
  let layers := resolveIds data Row.layer layer?
  let inests := resolveIds data Row.inest inest?
  data.map (fun r =>
    decide (r.layer ∈ layers) && decide (r.inest ∈ inests)
      && !decide (r.value ∈ mv))

/-- Numpy boolean-mask indexing `data[mask]`. -/
def maskFilter : List Row → List Bool → List Row
  | r :: rs, b :: bs => if b then r :: maskFilter rs bs else maskFilter rs bs
  | _, _ => []

/-- `get_data(..., as_array=False, as_mask=False)`: the selected sub-recarray. -/
def get_data_rec (data : List Row) (layer? inest? : Option (List Nat))
    (mv : List ℚ) : List Row :=
  maskFilter data (getDataMask data layer? inest? mv)

/-- Largest `i` (resp. `j`) in a group, `np.max(ndata[col])` for nonempty input. -/
def natMax (l : List Nat) : Nat := l.foldl max 0

/-- The `as_array=True` treatment of one `(layer, inest)` group:
`nrow = max(i)+1`, `ncol = max(j)+1`, then `values.reshape(nrow, ncol)`.
`none` models the numpy failures: `np.max` of an empty group raises, and
`reshape` raises when the group size is not `nrow * ncol`. -/
def reshapeGroup (g : List Row) : Option (List (List ℚ)) :=
  if g.isEmpty then none
  else
    let nrow := natMax (g.map Row.i) + 1
    let ncol := natMax (g.map Row.j) + 1
    let vals := g.map Row.value
    if vals.length = nrow * ncol then
      some ((List.range nrow).map (fun r =>
        (List.range ncol).map (fun c => vals.getD (r * ncol + c) 0)))
    else none

/-- `get_data(..., as_array=True)`: for each requested layer (outer loop) and
nest (inner loop), subset the raw data (`masked_values` is *not* applied on
this path) and reshape the group.  The unused `mv` argument mirrors the
Python signature: the `as_array` branch never reads `masked_values`. -/
def get_data_array (data : List Row) (layer? inest? : Option (List Nat))
    (mv : List ℚ) : Option (List (List (List ℚ))) :=
  let _ := mv
  let layers := resolveIds data Row.layer layer?
  let inests := resolveIds data Row.inest inest?
  (layers.flatMap (fun l => inests.map (fun n => (l, n)))).mapM
    (fun p => reshapeGroup
      (((data.filter (fun r => r.layer == p.1)).filter (fun r => r.inest == p.2))))

/-! ### `MartheField.get_masked` -/

/-- Python `str.casefold` restricted to the ASCII names used for fields
(`'imask'`, `'permh'`, ...): lowercase every character. -/
def lowerName (s : String) : String := ⟨s.data.map Char.toLower⟩

/-- The construction-time state of a `MartheField` that `get_masked` and
`set_data` read: the field name, the `use_imask` flag and the parent model's
`imask.data` recarray.  (`self.dmv` is always the module constant `dmv`:
`__init__` sets `self.dmv = dmv` and nothing ever rebinds it.) -/
structure FieldCtx where
  field : String
  use_imask : Bool
  imaskData : List Row

/-- Numpy `dst['value'][mask] = src['value'][mask]`: positionwise, rows where
the mask is true take `src`'s value, the others keep `dst`'s row. -/
def applyMaskedAssign : List Row → List Row → List Bool → List Row
  | d :: ds, s :: ss, b :: bs =>
      (if b then { d with value := s.value } else d) :: applyMaskedAssign ds ss bs
  | _, _, _ => []

/-- `MartheField.get_masked`: for a model-dependent field
(`use_imask` and field ≠ 'imask'), deep-copy `imask.data` and overwrite the
value column on the active domain (`imask.get_data(masked_values=dmv,
as_mask=True)`) with the input's values; otherwise return the input itself. -/
def get_masked (ctx : FieldCtx) (rec : List Row) : List Row :=
  if ctx.use_imask ∧ lowerName ctx.field ≠ "imask" then
    let mask := getDataMask ctx.imaskData none none dmv
    applyMaskedAssign ctx.imaskData rec mask
  else rec

/-! ### `MartheField.set_data` paths -/

/-- Numpy `data['value'][mask] = v`: broadcast a scalar on the masked rows. -/
def assignScalar : List Row → List Bool → ℚ → List Row
  | r :: rs, b :: bs, v =>
      (if b then { r with value := v } else r) :: assignScalar rs bs v
  | _, _, _ => []

/-- Pandas `df.loc[mask, 'value'] = vals`: rows satisfying `p` receive the
successive elements of `vals`, in order; other rows are unchanged. -/
def assignSeq : List Row → (Row → Bool) → List ℚ → List Row
  | [], _, _ => []
  | r :: rs, p, vs =>
      if p r then { r with value := vs.headD r.value } :: assignSeq rs p vs.tail
      else r :: assignSeq rs p vs

/-- `MartheField._3d2rec`: deep-copy `imask.data`, then for each layer of the
3D array overwrite the values of the `(layer == l) & (inest == 0)` rows with
the raveled 2D slice. -/
def rec3dOf (imaskData : List Row) (arr3d : List (List (List ℚ))) : List Row :=
  arr3d.enum.foldl
    (fun acc p =>
      assignSeq acc (fun r => r.layer == p.1 && r.inest == 0) p.2.flatten)
    imaskData

/-- `set_data` with a recarray argument: `self.data = self.get_masked(data)`. -/
def set_data_rec (ctx : FieldCtx) (rec : List Row) : List Row :=
  get_masked ctx rec

/-- `set_data` with a 3D-array argument (layer, inest both `None`):
`self.data = self.get_masked(self._3d2rec(data))`. -/
def set_data_3d (ctx : FieldCtx) (arr3d : List (List (List ℚ))) : List Row :=
  get_masked ctx (rec3dOf ctx.imaskData arr3d)

/-- `set_data` with a numeric argument when `self.data` does not exist yet:
deep-copy `imask.data` and set the scalar on
`imask.get_data(layer, inest, masked_values=dmv, as_mask=True)`. -/
def set_data_num_fresh (ctx : FieldCtx) (v : ℚ)
    (layer? inest? : Option (List Nat)) : List Row :=
  assignScalar ctx.imaskData (getDataMask ctx.imaskData layer? inest? dmv) v

/-- `set_data` with a numeric argument on an existing `self.data`:
`self.data['value'][self.get_data(layer, inest, masked_values=dmv,
as_mask=True)] = v`. -/
def set_data_num_existing (data : List Row) (v : ℚ)
    (layer? inest? : Option (List Nat)) : List Row :=
  assignScalar data (getDataMask data layer? inest? dmv) v

/-! ### Grids (`MartheGrid`, `grids2rec`, `_rec2grid`, `to_grids`)

`MartheGrid` lives in `pymarthe/utils/grid_utils.py`, which is not part of
this repository snapshot; its attributes and `to_records` are modelled from
the spec (one table row per cell, row-major, cell-center coordinates from the
grid's `xcc`/`ycc` vectors).  Everything else below is translated from
`mfield.py`. -/

/-- Modelled from the spec: a Grid Descriptor (`MartheGrid`) — one structured
regular grid for a (layer, nest) pair, with cell-center coordinate vectors
and a dense 2D value array. -/
structure MartheGrid where
  istep : Int
  layer : Nat
  inest : Nat
  nrow : Nat
  ncol : Nat
  xl : ℚ
  yl : ℚ
  dx : List ℚ
  dy : List ℚ
  xcc : List ℚ
  ycc : List ℚ
  array : List (List ℚ)
  field : String
deriving DecidableEq

/-- Modelled from the spec: `MartheGrid.to_records` — expand the grid to
`nrow * ncol` table rows in row-major order; cell `(r, c)` has
`x = xcc[c]`, `y = ycc[r]` and `value = array[r][c]`. -/
def MartheGrid.to_records (mg : MartheGrid) : List Row :=
  (List.range mg.nrow).flatMap (fun r =>
    (List.range mg.ncol).map (fun c =>
      ⟨mg.layer, mg.inest, r, c, mg.xcc.getD c 0, mg.ycc.getD r 0,
        (mg.array.getD r []).getD c 0⟩))

/-- `MartheField.grids2rec`: stack the records of consecutive grids. -/
def grids2rec (grids : List MartheGrid) : List Row :=
  (grids.map MartheGrid.to_records).flatten

/-- `np.gradient` on a 1D array: one-sided differences at the ends, central
differences inside; raises (`none`) on fewer than 2 points. -/
def npGradient (l : List ℚ) : Option (List ℚ) :=
  if l.length < 2 then none
  else some ((List.range l.length).map (fun k =>
    if k = 0 then l.getD 1 0 - l.getD 0 0
    else if k = l.length - 1 then l.getD k 0 - l.getD (k - 1) 0
    else (l.getD (k + 1) 0 - l.getD (k - 1) 0) / 2))

/-- `MartheField._rec2grid`: rebuild the single grid of one (layer, inest)
pair from the table — dense array via `get_data(as_array=True)[0]`, `xcc` as
the sorted distinct x, `ycc` as the flipped sorted distinct y, spacings as
the absolute gradient of the centers, origin at first-center minus half of
the adjacent spacing. -/
def _rec2grid (fieldName : String) (data : List Row) (layer inest : Nat) :
    Option MartheGrid :=
  (get_data_array data (some [layer]) (some [inest]) []).bind (fun arrays =>
    match arrays with
    | [] => none
    | array :: _ =>
      let nrow := array.length
      let ncol := (array.headD []).length
      let sel := get_data_rec data (some [layer]) (some [inest]) []
      let xcc := npUnique (sel.map Row.x)
      let ycc := (npUnique (sel.map Row.y)).reverse
      (npGradient xcc).bind (fun gx =>
        (npGradient ycc).map (fun gy =>
          let dx := gx.map abs
          let dy := gy.map abs
          let xl := xcc.getD 0 0 - dx.getD 0 0 / 2
          let yl := ycc.getLast?.getD 0 - dy.getLast?.getD 0 / 2
          ⟨-9999, layer, inest, nrow, ncol, xl, yl, dx, dy, xcc, ycc,
            array, fieldName⟩)))

/-- `MartheField.to_grids`: subset the table, then for each nest id
(ascending) and each layer id (ascending) among the distinct values of the
subset, rebuild the grid of that pair with `_rec2grid`.  Any numpy failure
inside (`np.max` of an empty pair, reshape mismatch, `np.gradient` on a
single point) aborts the whole conversion (`none`). -/
def to_grids (fieldName : String) (data : List Row)
    (layer? inest? : Option (List Nat)) : Option (List MartheGrid) :=
  let sel := get_data_rec data layer? inest? []
  ((npUnique (sel.map Row.inest)).flatMap (fun n =>
      (npUnique (sel.map Row.layer)).map (fun l => (n, l)))).mapM
    (fun p => _rec2grid fieldName data p.2 p.1)

/-! ### `MartheFieldSeries` (`load_field`, `get_tseries`)

`marthe_utils.get_chasim_indexer` and `read_grid_file` belong to
`pymarthe/utils/marthe_utils.py`, which is not part of this snapshot; per the
spec the indexer yields one `(field, istep, byte start, byte end)` tuple per
grid block of the stream, and the reader turns a byte range back into its
grid.  We model the stream as the indexer with each entry carrying the grid
its byte range denotes. -/

/-- Modelled from the spec: one entry of the chasim indexer — a
`(field, istep, start, end)` tuple together with the `MartheGrid` the stream
reader yields for that byte range. -/
structure ChasimEntry where
  field : String
  istep : Nat
  start : Nat
  stop : Nat
  grid : MartheGrid
deriving DecidableEq

/-- The two failure modes of `load_field`: the `assert exist` unknown-field
error, and the `np.max` of an empty istep list (every requested istep absent
from the stream). -/
inductive LoadErr where
  | unknownField
  | emptyIsteps
deriving DecidableEq

/-- Numpy `data['value'] = vals`: replace the value column positionwise. -/
def setValueColumn (data : List Row) (vals : List ℚ) : List Row :=
  (data.zip vals).map (fun p => { p.1 with value := p.2 })

/-- `MartheFieldSeries.load_field`: assert the field was observed in the
stream, keep the requested isteps that are present (`None` = all), fail on
`np.max` if none is left, then for each retained istep (pandas `groupby`
iterates keys in ascending order) deep-copy `imask` and overwrite its value
column with the concatenated raveled grid arrays of that istep. -/
def load_field (imaskData : List Row) (indexer : List ChasimEntry)
    (field : String) (istep? : Option (List Nat)) :
    Except LoadErr (List (Nat × List Row)) :=
  if (indexer.filter (fun e => e.field == field)).isEmpty then
    .error .unknownField
  else
    let available :=
      npUnique ((indexer.filter (fun e => e.field == field)).map ChasimEntry.istep)
    let isteps := match istep? with
      | none => available
      | some l => l.filter (fun k => decide (k ∈ available))
    if isteps.isEmpty then .error .emptyIsteps
    else
      let df := indexer.filter (fun e => e.field == field && decide (e.istep ∈ isteps))
      .ok ((npUnique (df.map ChasimEntry.istep)).map (fun k =>
        let idf := df.filter (fun e => e.istep == k)
        (k, setValueColumn imaskData
              ((idf.map (fun e => e.grid.array.flatten)).flatten))))

/-- The default `masked_values` of `get_tseries`: the Python slice `dmv[::2]`
(note: *not* the full `dmv`). -/
def get_tseries_default_mv : List ℚ := everySecond dmv

/-- The value-extraction core of `MartheFieldSeries.get_tseries`: for every
loaded istep, read the value at each node index of that istep's table, then
`DataFrame.replace(masked_values, np.nan)` — model NaN as `none`.  Rows and
positions are never dropped; only the matching entries are rewritten. -/
def get_tseries_values (loaded : List (Nat × List Row)) (nodes : List Nat)
    (mv : List ℚ) : List (Nat × List (Option ℚ)) :=
  loaded.map (fun p =>
    (p.1, nodes.map (fun n =>
      let v := (p.2.getD n default).value
      if v ∈ mv then none else some v)))

/-! ### Reference model for aliasing (`deepcopy` vs direct reuse)

To state the frame/aliasing claim we track numpy arrays through an explicit
store: a `Heap` of recarrays addressed by index.  `deepcopy` allocates a new
cell; returning an object unchanged returns the same address. -/

/-- A store of recarrays; an address is an index into `cells`. -/
structure Heap where
  cells : List (List Row)
deriving DecidableEq

/-- Read the recarray at an address (out-of-range reads give `[]`). -/
def Heap.read (h : Heap) (a : Nat) : List Row := h.cells.getD a []

/-- `deepcopy`: allocate a fresh cell holding `v`. -/
def Heap.alloc (h : Heap) (v : List Row) : Heap × Nat :=
  (⟨h.cells ++ [v]⟩, h.cells.length)

/-- In-place mutation of the recarray at an address. -/
def Heap.write (h : Heap) (a : Nat) (v : List Row) : Heap :=
  ⟨h.cells.set a v⟩

/-- `get_masked` with explicit references: the model-dependent branch
deep-copies `imask.data` into a fresh cell, the independent branch returns
the *input address itself* (`mrec = rec`). -/
def get_masked_ref (useImask : Bool) (fieldName : String) (imaskAddr : Nat)
    (h : Heap) (recAddr : Nat) : Heap × Nat :=
  if useImask ∧ lowerName fieldName ≠ "imask" then
    let imaskData := h.read imaskAddr
    let mask := getDataMask imaskData none none dmv
    h.alloc (applyMaskedAssign imaskData (h.read recAddr) mask)
  else (h, recAddr)

/-- `set_data(v)` (numeric, existing data) with explicit references:
mutate the value column of the recarray at the field's data address. -/
def set_data_num_ref (h : Heap) (dataAddr : Nat) (v : ℚ) : Heap :=
  h.write dataAddr (set_data_num_existing (h.read dataAddr) v none none)

/-! ### Basic lemmas on the mask/assignment combinators -/

theorem maskFilter_map (l : List Row) (f : Row → Bool) :
    maskFilter l (l.map f) = l.filter f := by
  induction l with
  | nil => rfl
  | cons r rs ih =>
    simp only [List.map_cons, maskFilter, List.filter_cons]
    by_cases h : f r <;> simp [h, ih]

theorem getDataMask_none_none (data : List Row) (mv : List ℚ) :
    getDataMask data none none mv
      = data.map (fun r => !decide (r.value ∈ mv)) := by
  unfold getDataMask resolveIds
  apply List.map_congr_left
  intro r hr
  have h1 : r.layer ∈ npUnique (data.map Row.layer) :=
    mem_npUnique.mpr (List.mem_map_of_mem _ hr)
  have h2 : r.inest ∈ npUnique (data.map Row.inest) :=
    mem_npUnique.mpr (List.mem_map_of_mem _ hr)
  simp [h1, h2]

theorem get_data_rec_all (data : List Row) :
    get_data_rec data none none [] = data := by
  unfold get_data_rec
  rw [getDataMask_none_none]
  simpa using maskFilter_map data (fun _ => true)

theorem getD_map_lt {α β : Type} {l : List α} (f : α → β) {k : Nat}
    (hk : k < l.length) (d : α) (e : β) :
    (l.map f).getD k e = f (l.getD k d) := by
  induction l generalizing k with
  | nil => simp at hk
  | cons a t ih =>
    cases k with
    | zero => rfl
    | succ k => exact ih (by simpa using hk)

theorem applyMaskedAssign_length (d s : List Row) (m : List Bool)
    (hs : s.length = d.length) (hm : m.length = d.length) :
    (applyMaskedAssign d s m).length = d.length := by
  induction d generalizing s m with
  | nil => cases s <;> cases m <;> rfl
  | cons r rs ih =>
    cases s with
    | nil => simp at hs
    | cons a ss =>
      cases m with
      | nil => simp at hm
      | cons b bs =>
        simp only [applyMaskedAssign, List.length_cons]
        rw [ih ss bs (by simpa using hs) (by simpa using hm)]

theorem geom_applyMaskedAssign (d s : List Row) (m : List Bool)
    (hs : s.length = d.length) (hm : m.length = d.length) :
    geom (applyMaskedAssign d s m) = geom d := by
  induction d generalizing s m with
  | nil => cases s <;> cases m <;> rfl
  | cons r rs ih =>
    cases s with
    | nil => simp at hs
    | cons a ss =>
      cases m with
      | nil => simp at hm
      | cons b bs =>
        have ih' := ih ss bs (by simpa using hs) (by simpa using hm)
        simp only [geom] at ih'
        simp only [applyMaskedAssign, geom, List.map_cons, ih']
        by_cases h : b <;> simp [h, geomRow]

theorem applyMaskedAssign_getD (d s : List Row) (m : List Bool) (k : Nat)
    (hs : s.length = d.length) (hm : m.length = d.length) (hk : k < d.length) :
    (applyMaskedAssign d s m).getD k default =
      if m.getD k false then
        { d.getD k default with value := (s.getD k default).value }
      else d.getD k default := by
  induction d generalizing s m k with
  | nil => simp at hk
  | cons r rs ih =>
    cases s with
    | nil => simp at hs
    | cons a ss =>
      cases m with
      | nil => simp at hm
      | cons b bs =>
        cases k with
        | zero => by_cases h : b <;> simp [applyMaskedAssign, h]
        | succ k =>
          simpa [applyMaskedAssign] using
            ih ss bs k (by simpa using hs) (by simpa using hm) (by simpa using hk)

theorem applyMaskedAssign_idem (d s : List Row) (m : List Bool) :
    applyMaskedAssign d (applyMaskedAssign d s m) m = applyMaskedAssign d s m := by
  induction d generalizing s m with
  | nil => rfl
  | cons r rs ih =>
    cases s with
    | nil => cases m <;> rfl
    | cons a ss =>
      cases m with
      | nil => rfl
      | cons b bs =>
        by_cases h : b <;> simp [applyMaskedAssign, h, ih]

theorem get_masked_bound (ctx : FieldCtx) (rec : List Row)
    (hu : ctx.use_imask = true) (hf : lowerName ctx.field ≠ "imask") :
    get_masked ctx rec =
      applyMaskedAssign ctx.imaskData rec
        (ctx.imaskData.map (fun r => !decide (r.value ∈ dmv))) := by
  unfold get_masked
  rw [if_pos ⟨hu, hf⟩, getDataMask_none_none]

theorem get_masked_indep (ctx : FieldCtx) (rec : List Row)
    (h : ctx.use_imask = false ∨ lowerName ctx.field = "imask") :
    get_masked ctx rec = rec := by
  unfold get_masked
  rw [if_neg]
  rintro ⟨h1, h2⟩
  rcases h with h | h
  · rw [h] at h1; exact Bool.false_ne_true h1
  · exact h2 h

/-- Claim C1: with `use_mask` true and a field other than the domain
reference `'imask'`, `get_masked(rec)` has the reference's row count and
geometry, takes `rec`'s value wherever the reference value is not a sentinel
of {-9999, 0, 9999}, and keeps the reference's own sentinel value elsewhere;
with `use_mask` false or on the reference field itself it returns `rec`
unmodified. -/
theorem claim_C1 (ctx : FieldCtx) (rec : List Row)
    (hlen : rec.length = ctx.imaskData.length) :
    (ctx.use_imask = true → lowerName ctx.field ≠ "imask" →
      (get_masked ctx rec).length = ctx.imaskData.length ∧
      geom (get_masked ctx rec) = geom ctx.imaskData ∧
      (∀ k, k < ctx.imaskData.length →
        (((ctx.imaskData.getD k default).value ∉ dmv →
            ((get_masked ctx rec).getD k default).value
              = (rec.getD k default).value) ∧
         ((ctx.imaskData.getD k default).value ∈ dmv →
            ((get_masked ctx rec).getD k default).value
              = (ctx.imaskData.getD k default).value)))) ∧
    ((ctx.use_imask = false ∨ lowerName ctx.field = "imask") →
      get_masked ctx rec = rec) := by
  constructor
  · intro hu hf
    rw [get_masked_bound ctx rec hu hf]
    have hm : (ctx.imaskData.map (fun r => !decide (r.value ∈ dmv))).length
        = ctx.imaskData.length := List.length_map _ _
    refine ⟨applyMaskedAssign_length _ _ _ hlen hm,
            geom_applyMaskedAssign _ _ _ hlen hm, ?_⟩
    intro k hk
    rw [applyMaskedAssign_getD _ _ _ k hlen hm hk,
        getD_map_lt (fun r => !decide (r.value ∈ dmv)) hk default false]
    constructor
    · intro hv
      rw [if_pos (by simpa using hv)]
    · intro hv
      rw [if_neg (by simpa using hv)]
  · exact get_masked_indep ctx rec

/-- Claim C7: `get_masked` is idempotent, in the domain-bound and in the
independent configuration alike. -/
theorem claim_C7 (ctx : FieldCtx) (rec : List Row)
    (_hlen : rec.length = ctx.imaskData.length) :
    get_masked ctx (get_masked ctx rec) = get_masked ctx rec := by
  unfold get_masked
  by_cases h : ctx.use_imask ∧ lowerName ctx.field ≠ "imask"
  · simp only [if_pos h]
    exact applyMaskedAssign_idem _ _ _
  · simp only [if_neg h]

/-- Concrete domain reference for the `claim_C1` witness: an active cell
(value 1) and an inactive cell (sentinel value 0). -/
def ctxC1 : FieldCtx :=
  ⟨"permh", true, [⟨0, 0, 0, 0, 0, 0, 1⟩, ⟨0, 0, 0, 1, 1, 0, 0⟩]⟩

/-- Concrete input table for the `claim_C1` witness. -/
def recC1 : List Row := [⟨0, 0, 0, 0, 0, 0, 5⟩, ⟨0, 0, 0, 1, 1, 0, 7⟩]

theorem claim_C1_witness :
    recC1.length = ctxC1.imaskData.length ∧
    ((ctxC1.use_imask = true → lowerName ctxC1.field ≠ "imask" →
      (get_masked ctxC1 recC1).length = ctxC1.imaskData.length ∧
      geom (get_masked ctxC1 recC1) = geom ctxC1.imaskData ∧
      (∀ k, k < ctxC1.imaskData.length →
        (((ctxC1.imaskData.getD k default).value ∉ dmv →
            ((get_masked ctxC1 recC1).getD k default).value
              = (recC1.getD k default).value) ∧
         ((ctxC1.imaskData.getD k default).value ∈ dmv →
            ((get_masked ctxC1 recC1).getD k default).value
              = (ctxC1.imaskData.getD k default).value)))) ∧
     ((ctxC1.use_imask = false ∨ lowerName ctxC1.field = "imask") →
      get_masked ctxC1 recC1 = recC1)) :=
  ⟨by decide, claim_C1 ctxC1 recC1 (by decide)⟩

/-- Concrete field context for the `claim_C7` witness. -/
def ctxC7 : FieldCtx :=
  ⟨"emmca", true, [⟨0, 0, 0, 0, 0, 0, 1⟩, ⟨0, 0, 0, 1, 1, 0, 9999⟩]⟩

/-- Concrete input table for the `claim_C7` witness. -/
def recC7 : List Row := [⟨0, 0, 0, 0, 0, 0, 3⟩, ⟨0, 0, 0, 1, 1, 0, 4⟩]

theorem claim_C7_witness :
    recC7.length = ctxC7.imaskData.length ∧
    get_masked ctxC7 (get_masked ctxC7 recC7) = get_masked ctxC7 recC7 :=
  ⟨by decide, claim_C7 ctxC7 recC7 (by decide)⟩

/-- `set_data` with a list of grids (or, via the external reader, a Marthe
property file name): `self.data = self.get_masked(self.grids2rec(data))`. -/
def set_data_grids (ctx : FieldCtx) (grids : List MartheGrid) : List Row :=
  get_masked ctx (grids2rec grids)

theorem geom_length (d : List Row) : (geom d).length = d.length :=
  List.length_map _ _

theorem length_eq_of_geom_eq {a b : List Row} (h : geom a = geom b) :
    a.length = b.length := by
  rw [← geom_length a, ← geom_length b, h]

theorem getDataMask_length (data : List Row) (layer? inest? : Option (List Nat))
    (mv : List ℚ) : (getDataMask data layer? inest? mv).length = data.length := by
  simp [getDataMask]

theorem geom_assignScalar (d : List Row) (m : List Bool) (v : ℚ)
    (hm : m.length = d.length) : geom (assignScalar d m v) = geom d := by
  induction d generalizing m with
  | nil => cases m <;> rfl
  | cons r rs ih =>
    cases m with
    | nil => simp at hm
    | cons b bs =>
      have ih' := ih bs (by simpa using hm)
      simp only [geom] at ih'
      simp only [assignScalar, geom, List.map_cons, ih']
      by_cases h : b <;> simp [h, geomRow]

theorem geom_assignSeq (d : List Row) (p : Row → Bool) (vs : List ℚ) :
    geom (assignSeq d p vs) = geom d := by
  induction d generalizing vs with
  | nil => rfl
  | cons r rs ih =>
    simp only [assignSeq]
    by_cases h : p r
    · have ih' := ih vs.tail
      simp only [geom] at ih'
      simp [h, geom, ih', geomRow]
    · have ih' := ih vs
      simp only [geom] at ih'
      simp [h, geom, ih', geomRow]

theorem geom_rec3dOf (imaskData : List Row) (arr3d : List (List (List ℚ))) :
    geom (rec3dOf imaskData arr3d) = geom imaskData := by
  unfold rec3dOf
  generalize arr3d.enum = l
  induction l generalizing imaskData with
  | nil => rfl
  | cons p t ih =>
    simp only [List.foldl_cons]
    rw [ih, geom_assignSeq]

/-- Claim C2: every construction or mutation path of a domain-bound field
(recarray, grid list — the file path goes through the same two calls — 3D
array, scalar on fresh or existing data) yields a table with the domain
reference's row count and geometry columns; only the value column differs. -/
theorem claim_C2 (ctx : FieldCtx)
    (hu : ctx.use_imask = true) (hf : lowerName ctx.field ≠ "imask") :
    (∀ rec, rec.length = ctx.imaskData.length →
      geom (set_data_rec ctx rec) = geom ctx.imaskData ∧
      (set_data_rec ctx rec).length = ctx.imaskData.length) ∧
    (∀ grids, (grids2rec grids).length = ctx.imaskData.length →
      geom (set_data_grids ctx grids) = geom ctx.imaskData ∧
      (set_data_grids ctx grids).length = ctx.imaskData.length) ∧
    (∀ arr3d, geom (set_data_3d ctx arr3d) = geom ctx.imaskData ∧
      (set_data_3d ctx arr3d).length = ctx.imaskData.length) ∧
    (∀ v layer? inest?,
      geom (set_data_num_fresh ctx v layer? inest?) = geom ctx.imaskData ∧
      (set_data_num_fresh ctx v layer? inest?).length = ctx.imaskData.length) ∧
    (∀ data v layer? inest?, geom data = geom ctx.imaskData →
      geom (set_data_num_existing data v layer? inest?) = geom ctx.imaskData ∧
      (set_data_num_existing data v layer? inest?).length
        = ctx.imaskData.length) := by
  have hmask : ∀ rec : List Row, rec.length = ctx.imaskData.length →
      geom (get_masked ctx rec) = geom ctx.imaskData := by
    intro rec hlen
    rw [get_masked_bound ctx rec hu hf]
    exact geom_applyMaskedAssign _ _ _ hlen (List.length_map _ _)
  refine ⟨?_, ?_, ?_, ?_, ?_⟩
  · intro rec hlen
    have h := hmask rec hlen
    exact ⟨h, length_eq_of_geom_eq h⟩
  · intro grids hlen
    have h := hmask (grids2rec grids) hlen
    exact ⟨h, length_eq_of_geom_eq h⟩
  · intro arr3d
    have hlen : (rec3dOf ctx.imaskData arr3d).length = ctx.imaskData.length :=
      length_eq_of_geom_eq (geom_rec3dOf _ _)
    have h := hmask (rec3dOf ctx.imaskData arr3d) hlen
    exact ⟨h, length_eq_of_geom_eq h⟩
  · intro v layer? inest?
    have h : geom (set_data_num_fresh ctx v layer? inest?) = geom ctx.imaskData :=
      geom_assignScalar _ _ _ (getDataMask_length _ _ _ _)
    exact ⟨h, length_eq_of_geom_eq h⟩
  · intro data v layer? inest? hgeom
    have h : geom (set_data_num_existing data v layer? inest?) = geom data :=
      geom_assignScalar _ _ _ (getDataMask_length _ _ _ _)
    exact ⟨h.trans hgeom, length_eq_of_geom_eq (h.trans hgeom)⟩

/-- Concrete domain reference for the `claim_C2` witness. -/
def ctxC2 : FieldCtx :=
  ⟨"kepon", true, [⟨0, 0, 0, 0, 0, 0, 1⟩, ⟨0, 0, 0, 1, 1, 0, 0⟩]⟩

theorem claim_C2_witness :
    ctxC2.use_imask = true ∧ lowerName ctxC2.field ≠ "imask" ∧
    ((∀ rec, rec.length = ctxC2.imaskData.length →
      geom (set_data_rec ctxC2 rec) = geom ctxC2.imaskData ∧
      (set_data_rec ctxC2 rec).length = ctxC2.imaskData.length) ∧
    (∀ grids, (grids2rec grids).length = ctxC2.imaskData.length →
      geom (set_data_grids ctxC2 grids) = geom ctxC2.imaskData ∧
      (set_data_grids ctxC2 grids).length = ctxC2.imaskData.length) ∧
    (∀ arr3d, geom (set_data_3d ctxC2 arr3d) = geom ctxC2.imaskData ∧
      (set_data_3d ctxC2 arr3d).length = ctxC2.imaskData.length) ∧
    (∀ v layer? inest?,
      geom (set_data_num_fresh ctxC2 v layer? inest?) = geom ctxC2.imaskData ∧
      (set_data_num_fresh ctxC2 v layer? inest?).length = ctxC2.imaskData.length) ∧
    (∀ data v layer? inest?, geom data = geom ctxC2.imaskData →
      geom (set_data_num_existing data v layer? inest?) = geom ctxC2.imaskData ∧
      (set_data_num_existing data v layer? inest?).length
        = ctxC2.imaskData.length)) :=
  ⟨rfl, by decide, claim_C2 ctxC2 rfl (by decide)⟩

/-! ### Lemmas on `reshapeGroup` (numpy reshape of one (layer, inest) group) -/

theorem le_foldl_max (l : List Nat) (b : Nat) : b ≤ l.foldl max b := by
  induction l generalizing b with
  | nil => exact le_refl b
  | cons a t ih => exact le_trans (le_max_left b a) (ih (max b a))

theorem mem_le_foldl_max (l : List Nat) (b a : Nat) (h : a ∈ l) :
    a ≤ l.foldl max b := by
  induction l generalizing b with
  | nil => simp at h
  | cons c t ih =>
    rcases List.mem_cons.mp h with rfl | h'
    · exact le_trans (le_max_right b a) (le_foldl_max t _)
    · exact ih _ h'

theorem le_natMax {l : List Nat} {a : Nat} (h : a ∈ l) : a ≤ natMax l :=
  mem_le_foldl_max l 0 a h

theorem map_getD_range (l : List ℚ) (m : Nat) (hm : m ≤ l.length) :
    (List.range m).map (fun c => l.getD c 0) = l.take m := by
  apply List.ext_getElem
  · simp [hm]
  · intro k h1 h2
    simp only [List.getElem_map, List.getElem_range, List.getElem_take]
    exact List.getD_eq_getElem l 0 (lt_of_lt_of_le (by simpa using h1) hm)

theorem getD_drop_add (l : List ℚ) (m k : Nat) :
    (l.drop m).getD k 0 = l.getD (m + k) 0 := by
  simp [List.getD_eq_getElem?_getD, List.getElem?_drop]

theorem flatten_chunks (vals : List ℚ) (nrow ncol : Nat)
    (h : vals.length = nrow * ncol) :
    ((List.range nrow).map (fun r =>
      (List.range ncol).map (fun c => vals.getD (r * ncol + c) 0))).flatten
      = vals := by
  induction nrow generalizing vals with
  | zero =>
    simpa using (List.eq_nil_of_length_eq_zero (by simpa using h)).symm
  | succ n ih =>
    rw [List.range_succ_eq_map]
    simp only [List.map_cons, List.map_map, List.flatten_cons]
    have h0 : (List.range ncol).map (fun c => vals.getD (0 * ncol + c) 0)
        = vals.take ncol := by
      simpa using map_getD_range vals ncol (by rw [h, Nat.succ_mul]; omega)
    have h1 : ((List.range n).map ((fun r => (List.range ncol).map
          (fun c => vals.getD (r * ncol + c) 0)) ∘ (· + 1))).flatten
        = vals.drop ncol := by
      have hmap : (List.range n).map ((fun r => (List.range ncol).map
            (fun c => vals.getD (r * ncol + c) 0)) ∘ (· + 1))
          = (List.range n).map (fun r => (List.range ncol).map
            (fun c => (vals.drop ncol).getD (r * ncol + c) 0)) := by
        apply List.map_congr_left
        intro r _
        apply List.map_congr_left
        intro c _
        simp only [Function.comp]
        rw [getD_drop_add]
        congr 1
        ring
      rw [hmap]
      exact ih (vals.drop ncol) (by rw [List.length_drop, h, Nat.succ_mul]; omega)
    rw [h0, h1, List.take_append_drop]

/-- Success and content of `reshapeGroup`: the flattened output is exactly
the group's value column (nothing padded, nothing dropped). -/
theorem reshapeGroup_some_flatten (g : List Row) (A : List (List ℚ))
    (h : reshapeGroup g = some A) : A.flatten = g.map Row.value := by
  unfold reshapeGroup at h
  by_cases he : g.isEmpty
  · rw [if_pos he] at h; exact absurd h (by simp)
  · rw [if_neg he] at h
    dsimp only at h
    split at h
    · rename_i hlen
      have hA := (Option.some_injective _ h.symm)
      rw [hA]
      exact flatten_chunks _ _ _ (by simpa using hlen)
    · exact absurd h (by simp)

/-- `reshapeGroup` succeeds exactly on nonempty groups that cover the full
`(max i + 1) × (max j + 1)` rectangle, provided cells are not duplicated
(the table invariant: rows are unique per `(layer, inest, row, col)`). -/
theorem reshapeGroup_isSome_iff (g : List Row)
    (hnodup : (g.map (fun r => (r.i, r.j))).Nodup) :
    (reshapeGroup g).isSome = true ↔ (g ≠ [] ∧
      ∀ rc : Nat × Nat, rc.1 < natMax (g.map Row.i) + 1 →
        rc.2 < natMax (g.map Row.j) + 1 → rc ∈ g.map (fun r => (r.i, r.j))) := by
  have hcard : (g.map (fun r => (r.i, r.j))).toFinset.card = g.length := by
    rw [List.toFinset_card_of_nodup hnodup, List.length_map]
  have hsub : (g.map (fun r => (r.i, r.j))).toFinset ⊆
      Finset.range (natMax (g.map Row.i) + 1)
        ×ˢ Finset.range (natMax (g.map Row.j) + 1) := by
    intro rc hrc
    rw [List.mem_toFinset, List.mem_map] at hrc
    obtain ⟨r, hr, rfl⟩ := hrc
    rw [Finset.mem_product, Finset.mem_range, Finset.mem_range]
    exact ⟨Nat.lt_succ_of_le (le_natMax (List.mem_map_of_mem _ hr)),
           Nat.lt_succ_of_le (le_natMax (List.mem_map_of_mem _ hr))⟩
  constructor
  · intro hsome
    unfold reshapeGroup at hsome
    by_cases he : g.isEmpty
    · rw [if_pos he] at hsome; simp at hsome
    · rw [if_neg he] at hsome
      dsimp only at hsome
      split at hsome
      · rename_i hl
        refine ⟨by simpa [List.isEmpty_iff] using he, ?_⟩
        have hfeq : (g.map (fun r => (r.i, r.j))).toFinset =
            Finset.range (natMax (g.map Row.i) + 1)
              ×ˢ Finset.range (natMax (g.map Row.j) + 1) := by
          apply Finset.eq_of_subset_of_card_le hsub
          rw [hcard, Finset.card_product, Finset.card_range, Finset.card_range]
          rw [List.length_map] at hl
          omega
        intro rc h1 h2
        rw [← List.mem_toFinset, hfeq, Finset.mem_product]
        exact ⟨Finset.mem_range.mpr h1, Finset.mem_range.mpr h2⟩
      · simp at hsome
  · rintro ⟨hne, hcomp⟩
    have hsub2 : Finset.range (natMax (g.map Row.i) + 1)
        ×ˢ Finset.range (natMax (g.map Row.j) + 1) ⊆
        (g.map (fun r => (r.i, r.j))).toFinset := by
      intro rc hrc
      rw [Finset.mem_product, Finset.mem_range, Finset.mem_range] at hrc
      rw [List.mem_toFinset]
      exact hcomp rc hrc.1 hrc.2
    have heq := Finset.Subset.antisymm hsub hsub2
    have hl : g.length
        = (natMax (g.map Row.i) + 1) * (natMax (g.map Row.j) + 1) := by
      rw [← hcard, heq, Finset.card_product, Finset.card_range, Finset.card_range]
    unfold reshapeGroup
    rw [if_neg (by simpa [List.isEmpty_iff] using hne)]
    dsimp only
    rw [if_pos (by rw [List.length_map]; exact hl)]
    simp

theorem get_data_rec_eq_filter (data : List Row)
    (layer? inest? : Option (List Nat)) (mv : List ℚ) :
    get_data_rec data layer? inest? mv = data.filter (fun r =>
      decide (r.layer ∈ resolveIds data Row.layer layer?)
        && decide (r.inest ∈ resolveIds data Row.inest inest?)
        && !decide (r.value ∈ mv)) := by
  unfold get_data_rec getDataMask
  exact maskFilter_map data _

theorem mapM_singleton {α β : Type} (f : α → Option β) (p : α) :
    List.mapM f [p] = (f p).map (fun x => [x]) := by
  cases h : f p <;> simp [List.mapM, List.mapM.loop, h]

theorem get_data_array_single (data : List Row) (l n : Nat) (mv : List ℚ) :
    get_data_array data (some [l]) (some [n]) mv
      = (reshapeGroup ((data.filter (fun r => r.layer == l)).filter
          (fun r => r.inest == n))).map (fun A => [A]) := by
  unfold get_data_array resolveIds
  exact mapM_singleton _ (l, n)

/-- Claim C8: `get_data(as_array=True)` reshapes each selected
`(layer, inest)` group to `(max(row)+1, max(col)+1)`; under the table
invariant (no duplicated `(row, col)` cell in a group) the reshape succeeds
exactly when the group covers every cell of that rectangle, and a successful
reshape reproduces the group's raw values without any padding. -/
theorem claim_C8 (data : List Row) (l n : Nat) (mv : List ℚ) (g : List Row)
    (hg : g = (data.filter (fun r => r.layer == l)).filter (fun r => r.inest == n))
    (hnodup : (g.map (fun r => (r.i, r.j))).Nodup) :
    get_data_array data (some [l]) (some [n]) mv
        = (reshapeGroup g).map (fun A => [A]) ∧
    ((reshapeGroup g).isSome = true ↔ (g ≠ [] ∧
      ∀ rc : Nat × Nat, rc.1 < natMax (g.map Row.i) + 1 →
        rc.2 < natMax (g.map Row.j) + 1 → rc ∈ g.map (fun r => (r.i, r.j)))) ∧
    (∀ A, reshapeGroup g = some A → A.flatten = g.map Row.value) := by
  refine ⟨?_, reshapeGroup_isSome_iff g hnodup,
          fun A h => reshapeGroup_some_flatten g A h⟩
  subst hg
  exact get_data_array_single data l n mv

/-- Claim C10: the `as_array=True` output of `get_data` ignores the
`masked_values` argument — the dense arrays keep the raw value of every cell
of each selected group — while the recarray output of the same call excludes
rows whose value is in `masked_values`, and the `as_mask` output marks them
false. -/
theorem claim_C10 (data : List Row) (layer? inest? : Option (List Nat))
    (mv : List ℚ) :
    get_data_array data layer? inest? mv
        = get_data_array data layer? inest? [] ∧
    (∀ l n A g,
      g = (data.filter (fun r => r.layer == l)).filter (fun r => r.inest == n) →
      reshapeGroup g = some A → A.flatten = g.map Row.value) ∧
    (∀ r, r ∈ data → r.value ∈ mv → r ∉ get_data_rec data layer? inest? mv) ∧
    (∀ k, k < data.length → (data.getD k default).value ∈ mv →
      (getDataMask data layer? inest? mv).getD k false = false) := by
  refine ⟨rfl, fun l n A g hg h => reshapeGroup_some_flatten g A h, ?_, ?_⟩
  · intro r hr hrv hmem
    rw [get_data_rec_eq_filter] at hmem
    have := (List.mem_filter.mp hmem).2
    simp only [Bool.and_eq_true, Bool.not_eq_true', decide_eq_false_iff_not] at this
    exact this.2 hrv
  · intro k hk hv
    unfold getDataMask
    rw [getD_map_lt _ hk default false]
    simp only [Bool.and_eq_false_imp, Bool.and_eq_true, decide_eq_true_eq,
      Bool.not_eq_false', decide_eq_true_iff]
    intro _
    exact hv

/-- Concrete 2x2 single-layer table for the `claim_C8` witness. -/
def dataC8 : List Row :=
  [⟨0, 0, 0, 0, 0, 1, 1⟩, ⟨0, 0, 0, 1, 2, 1, 2⟩,
   ⟨0, 0, 1, 0, 0, 0, 3⟩, ⟨0, 0, 1, 1, 2, 0, 4⟩]

theorem claim_C8_witness :
    dataC8 = (dataC8.filter (fun r => r.layer == 0)).filter
        (fun r => r.inest == 0) ∧
    (dataC8.map (fun r => (r.i, r.j))).Nodup ∧
    (get_data_array dataC8 (some [0]) (some [0]) dmv
        = (reshapeGroup dataC8).map (fun A => [A]) ∧
    ((reshapeGroup dataC8).isSome = true ↔ (dataC8 ≠ [] ∧
      ∀ rc : Nat × Nat, rc.1 < natMax (dataC8.map Row.i) + 1 →
        rc.2 < natMax (dataC8.map Row.j) + 1 →
          rc ∈ dataC8.map (fun r => (r.i, r.j)))) ∧
    (∀ A, reshapeGroup dataC8 = some A → A.flatten = dataC8.map Row.value)) :=
  ⟨by decide, by decide, claim_C8 dataC8 0 0 dmv dataC8 (by decide) (by decide)⟩

/-- Concrete table with a sentinel value for the `claim_C10` witness. -/
def dataC10 : List Row := [⟨0, 0, 0, 0, 0, 1, 5⟩, ⟨0, 0, 0, 1, 1, 1, 0⟩]

theorem claim_C10_witness :
    (⟨0, 0, 0, 1, 1, 1, 0⟩ : Row) ∈ dataC10 ∧
    (⟨0, 0, 0, 1, 1, 1, 0⟩ : Row).value ∈ dmv ∧
    (⟨0, 0, 0, 1, 1, 1, 0⟩ : Row) ∉ get_data_rec dataC10 none none dmv :=
  ⟨by decide, by decide,
    (claim_C10 dataC10 none none dmv).2.2.1 _ (by decide) (by decide)⟩

/-- One loaded istep whose table holds the value 0 at node 0, for the C4
counterexample. -/
def loadedC4x : List (Nat × List Row) := [(3, [⟨0, 0, 0, 0, 0, 0, 0⟩])]

/-- Counterexample to claim C4: `get_tseries`'s *default* `masked_values` is
the slice `dmv[::2] = [-9999, 9999]`, so an extracted value equal to the
process-wide sentinel 0 is *kept* (`some 0`), not replaced by NaN. -/
theorem claim_C4_counterexample :
    (0 : ℚ) ∈ dmv ∧
    get_tseries_default_mv = [-9999, 9999] ∧
    get_tseries_values loadedC4x [0] get_tseries_default_mv
      = [(3, [some 0])] := by decide

/-- Claim C4 (amended): with its default `masked_values = dmv[::2]`
(`{-9999, 9999}` — the sentinel 0 is *not* in the default), `get_tseries`
replaces exactly the extracted values equal to -9999 or 9999 by the
missing-value marker, in place: one output row per loaded istep, one entry
per query node, nothing dropped. -/
theorem claim_C4_amended (loaded : List (Nat × List Row)) (nodes : List Nat) :
    get_tseries_default_mv = everySecond dmv ∧
    (get_tseries_values loaded nodes get_tseries_default_mv).length
      = loaded.length ∧
    (∀ k, k < loaded.length →
      ((get_tseries_values loaded nodes get_tseries_default_mv).getD k
          (0, [])).1 = (loaded.getD k (0, [])).1 ∧
      ((get_tseries_values loaded nodes get_tseries_default_mv).getD k
          (0, [])).2.length = nodes.length ∧
      (∀ m, m < nodes.length →
        ((get_tseries_values loaded nodes get_tseries_default_mv).getD k
            (0, [])).2.getD m (some 0)
          = (if (((loaded.getD k (0, [])).2).getD (nodes.getD m 0)
                  default).value = -9999 ∨
                (((loaded.getD k (0, [])).2).getD (nodes.getD m 0)
                  default).value = 9999
             then none
             else some (((loaded.getD k (0, [])).2).getD (nodes.getD m 0)
                  default).value))) := by
  refine ⟨rfl, List.length_map _ _, ?_⟩
  intro k hk
  unfold get_tseries_values
  rw [getD_map_lt (fun p : Nat × List Row => (p.1, nodes.map (fun n =>
        let v := (p.2.getD n default).value
        if v ∈ get_tseries_default_mv then none else some v))) hk (0, []) (0, [])]
  refine ⟨rfl, List.length_map _ _, ?_⟩
  intro m hm
  rw [getD_map_lt (fun n =>
        let v := (((loaded.getD k (0, [])).2).getD n default).value
        if v ∈ get_tseries_default_mv then none else some v) hm 0 (some 0)]
  simp only [get_tseries_default_mv, everySecond, dmv, List.mem_cons,
    List.mem_singleton, List.not_mem_nil, or_false]

/-- Loaded data for the `claim_C4_amended` witness: one istep, a -9999 cell
and a regular cell. -/
def loadedC4 : List (Nat × List Row) :=
  [(2, [⟨0, 0, 0, 0, 0, 0, -9999⟩, ⟨0, 0, 0, 1, 1, 0, 7⟩])]

/-- Query nodes for the `claim_C4_amended` witness. -/
def nodesC4 : List Nat := [0, 1]

theorem claim_C4_amended_witness :
    (0 : Nat) < loadedC4.length ∧ (0 : Nat) < nodesC4.length ∧
    (1 : Nat) < nodesC4.length ∧
    ((get_tseries_values loadedC4 nodesC4 get_tseries_default_mv).getD 0
        (0, [])).2.getD 0 (some 0) = none ∧
    ((get_tseries_values loadedC4 nodesC4 get_tseries_default_mv).getD 0
        (0, [])).2.getD 1 (some 0) = some 7 := by
  refine ⟨by decide, by decide, by decide, ?_, ?_⟩
  · have h := ((claim_C4_amended loadedC4 nodesC4).2.2 0 (by decide)).2.2 0
      (by decide)
    rw [h]; decide
  · have h := ((claim_C4_amended loadedC4 nodesC4).2.2 0 (by decide)).2.2 1
      (by decide)
    rw [h]; decide

/-! ### Claim C6: `load_field` and the istep intersection -/

/-- A one-cell grid appearing in the C6 stream model. -/
def gC6 : MartheGrid :=
  ⟨-9999, 0, 0, 1, 1, 0, 0, [1], [1], [0], [0], [[5]], "CHARGE"⟩

/-- A stream indexer holding field `CHARGE` at isteps 0 and 1. -/
def indexerC6 : List ChasimEntry :=
  [⟨"CHARGE", 0, 0, 10, gC6⟩, ⟨"CHARGE", 1, 10, 20, gC6⟩]

/-- Domain reference for the C6 examples. -/
def imaskC6 : List Row := [⟨0, 0, 0, 0, 0, 0, 1⟩]

/-- Counterexample to claim C6: for a *known* field, when every requested
istep is absent from the stream the retained istep list is empty and
`len(str(np.max(isteps)))` raises — the code errors instead of silently
loading the empty intersection. -/
theorem claim_C6_counterexample :
    (indexerC6.filter (fun e => e.field == "CHARGE")).isEmpty = false ∧
    load_field imaskC6 indexerC6 "CHARGE" (some [999])
      = .error .emptyIsteps :=
  ⟨rfl, rfl⟩

/-- Claim C6 (amended): `load_field` fails with the unknown-field error
exactly when the field never occurs in the indexed stream; for a known field
it materializes exactly the (sorted, distinct) intersection of the requested
isteps with those present, silently dropping requested-but-absent isteps —
*provided the intersection is nonempty*; when every requested istep is
absent it raises (`np.max` of an empty sequence) instead of returning an
empty load. -/
theorem claim_C6_amended (imaskData : List Row) (indexer : List ChasimEntry)
    (field : String) (istep? : Option (List Nat)) :
    ((load_field imaskData indexer field istep? = .error .unknownField) ↔
      (indexer.filter (fun e => e.field == field)).isEmpty = true) ∧
    (∀ req, istep? = some req →
      (indexer.filter (fun e => e.field == field)).isEmpty = false →
      (∃ k, k ∈ req ∧
        k ∈ (indexer.filter (fun e => e.field == field)).map ChasimEntry.istep) →
      ∃ res, load_field imaskData indexer field istep? = .ok res ∧
        res.map Prod.fst = npUnique ((indexer.filter (fun e =>
          e.field == field && decide (e.istep ∈ req))).map ChasimEntry.istep)) ∧
    (istep? = none →
      (indexer.filter (fun e => e.field == field)).isEmpty = false →
      ∃ res, load_field imaskData indexer field istep? = .ok res ∧
        res.map Prod.fst = npUnique ((indexer.filter (fun e =>
          e.field == field)).map ChasimEntry.istep)) ∧
    (∀ req, istep? = some req →
      (indexer.filter (fun e => e.field == field)).isEmpty = false →
      (∀ k, k ∈ req →
        k ∉ (indexer.filter (fun e => e.field == field)).map ChasimEntry.istep) →
      load_field imaskData indexer field istep? = .error .emptyIsteps) := by
  refine ⟨?_, ?_, ?_, ?_⟩
  · unfold load_field
    by_cases hE : (indexer.filter (fun e => e.field == field)).isEmpty
    · simp [hE]
    · rw [if_neg hE]
      dsimp only
      constructor
      · intro h
        split at h
        · exact absurd (Except.error.inj h) (by intro hx; cases hx)
        · exact absurd h (by intro hx; cases hx)
      · intro h
        rw [h] at hE
        exact absurd rfl hE
  · intro req hreq hne hint
    subst hreq
    unfold load_field
    rw [if_neg (by rw [hne]; exact Bool.false_ne_true)]
    dsimp only
    obtain ⟨k, hkreq, hkpres⟩ := hint
    have hkav : k ∈ npUnique ((indexer.filter
        (fun e => e.field == field)).map ChasimEntry.istep) :=
      mem_npUnique.mpr hkpres
    have hmem : k ∈ req.filter (fun j => decide (j ∈ npUnique ((indexer.filter
        (fun e => e.field == field)).map ChasimEntry.istep))) :=
      List.mem_filter.mpr ⟨hkreq, by simpa using hkav⟩
    rw [if_neg (by
      intro hempty
      rw [List.isEmpty_iff] at hempty
      rw [hempty] at hmem
      simp at hmem)]
    refine ⟨_, rfl, ?_⟩
    rw [List.map_map]
    have hid : (Prod.fst ∘ fun j => (j, setValueColumn imaskData
        ((((indexer.filter (fun e => e.field == field && decide (e.istep ∈
          req.filter (fun j2 => decide (j2 ∈ npUnique ((indexer.filter
            (fun e2 => e2.field == field)).map ChasimEntry.istep)))))).filter
          (fun e => e.istep == j)).map
            (fun e => e.grid.array.flatten)).flatten))) = id := rfl
    rw [hid, List.map_id]
    congr 1
    apply congrArg
    apply List.filter_congr
    intro e he
    by_cases hf : e.field == field
    · simp only [hf, Bool.true_and]
      by_cases her : e.istep ∈ req
      · have hav : e.istep ∈ npUnique ((indexer.filter
            (fun e2 => e2.field == field)).map ChasimEntry.istep) :=
          mem_npUnique.mpr
            (List.mem_map_of_mem _ (List.mem_filter.mpr ⟨he, hf⟩))
        simp [her, List.mem_filter, hav]
      · simp [her, List.mem_filter]
    · simp [hf]
  · intro hnone hne
    subst hnone
    unfold load_field
    rw [if_neg (by rw [hne]; exact Bool.false_ne_true)]
    dsimp only
    have hfilt_ne : (indexer.filter (fun e => e.field == field)) ≠ [] := by
      intro hx
      rw [hx] at hne
      exact absurd hne (by simp)
    rw [if_neg (by
      intro hempty
      rw [List.isEmpty_iff] at hempty
      obtain ⟨e, he⟩ := List.exists_mem_of_ne_nil _ hfilt_ne
      have hmem : e.istep ∈ npUnique ((indexer.filter
          (fun e2 => e2.field == field)).map ChasimEntry.istep) :=
        mem_npUnique.mpr (List.mem_map_of_mem _ he)
      rw [hempty] at hmem
      simp at hmem)]
    refine ⟨_, rfl, ?_⟩
    rw [List.map_map]
    have hid : (Prod.fst ∘ fun j => (j, setValueColumn imaskData
        ((((indexer.filter (fun e => e.field == field && decide (e.istep ∈
          npUnique ((indexer.filter
            (fun e2 => e2.field == field)).map ChasimEntry.istep)))).filter
          (fun e => e.istep == j)).map
            (fun e => e.grid.array.flatten)).flatten))) = id := rfl
    rw [hid, List.map_id]
    congr 1
    apply congrArg
    apply List.filter_congr
    intro e he
    by_cases hf : e.field == field
    · have hav : e.istep ∈ npUnique ((indexer.filter
          (fun e2 => e2.field == field)).map ChasimEntry.istep) :=
        mem_npUnique.mpr (List.mem_map_of_mem _ (List.mem_filter.mpr ⟨he, hf⟩))
      simp [hf, hav]
    · simp [hf]
  · intro req hreq hne habsent
    subst hreq
    unfold load_field
    rw [if_neg (by rw [hne]; exact Bool.false_ne_true)]
    dsimp only
    rw [if_pos (by
      rw [List.isEmpty_iff, List.filter_eq_nil_iff]
      intro k hk
      simp only [decide_eq_true_eq]
      intro hkav
      exact habsent k hk (mem_npUnique.mp hkav))]

/-! ### Claim C9: copying vs aliasing of recarrays -/

theorem heap_alloc_read (h : Heap) (v : List Row) (k : Nat)
    (hk : k < h.cells.length) : ((h.alloc v).1).read k = h.read k := by
  unfold Heap.alloc Heap.read
  simp [List.getD_eq_getElem?_getD, List.getElem?_append, hk]

theorem heap_write_read_ne (h : Heap) (a k : Nat) (v : List Row)
    (hak : a ≠ k) : (h.write a v).read k = h.read k := by
  unfold Heap.write Heap.read
  simp [List.getD_eq_getElem?_getD, List.getElem?_set_ne hak]

/-- The caller's recarray (one active cell of value 5) for the C9
counterexample, stored at address 0. -/
def heapC9 : Heap := ⟨[[⟨0, 0, 0, 0, 0, 0, 5⟩]]⟩

/-- Counterexample to claim C9: an independent field (`use_imask=False`)
built from a caller-supplied recarray *aliases* it (`get_masked` returns the
input object in its else-branch), so a scalar `set_data` through the field
mutates what the caller reads at the original address. -/
theorem claim_C9_counterexample :
    (get_masked_ref false "permh" 0 heapC9 0).2 = 0 ∧
    (set_data_num_ref (get_masked_ref false "permh" 0 heapC9 0).1
        (get_masked_ref false "permh" 0 heapC9 0).2 3).read 0
      ≠ heapC9.read 0 := by decide

/-- Claim C9 (amended): the domain-bound construction path deep-copies —
the new table lives at a fresh address, and mutating it through the field
leaves both the caller's input and the domain reference unchanged; the
independent path (`use_imask=False` with a caller recarray) instead returns
the caller's own address, so field and caller share mutable state. -/
theorem claim_C9_amended (h : Heap) (useField : String)
    (imaskAddr recAddr : Nat)
    (hrec : recAddr < h.cells.length) (himask : imaskAddr < h.cells.length)
    (hf : lowerName useField ≠ "imask") :
    ((get_masked_ref true useField imaskAddr h recAddr).2 ≠ recAddr ∧
     (get_masked_ref true useField imaskAddr h recAddr).2 ≠ imaskAddr ∧
     (get_masked_ref true useField imaskAddr h recAddr).1.read recAddr
        = h.read recAddr ∧
     (∀ v, (set_data_num_ref (get_masked_ref true useField imaskAddr h recAddr).1
              (get_masked_ref true useField imaskAddr h recAddr).2 v).read recAddr
            = h.read recAddr ∧
           (set_data_num_ref (get_masked_ref true useField imaskAddr h recAddr).1
              (get_masked_ref true useField imaskAddr h recAddr).2 v).read imaskAddr
            = h.read imaskAddr)) ∧
    ((get_masked_ref false useField imaskAddr h recAddr).1 = h ∧
     (get_masked_ref false useField imaskAddr h recAddr).2 = recAddr) := by
  have hcond : (true = true) ∧ lowerName useField ≠ "imask" := ⟨rfl, hf⟩
  have hbound : get_masked_ref true useField imaskAddr h recAddr
      = h.alloc (applyMaskedAssign (h.read imaskAddr) (h.read recAddr)
          (getDataMask (h.read imaskAddr) none none dmv)) := by
    unfold get_masked_ref
    rw [if_pos hcond]
  have haddr : (get_masked_ref true useField imaskAddr h recAddr).2
      = h.cells.length := by rw [hbound]; rfl
  constructor
  · refine ⟨by rw [haddr]; omega, by rw [haddr]; omega, ?_, ?_⟩
    · rw [hbound]
      exact heap_alloc_read h _ recAddr hrec
    · intro v
      unfold set_data_num_ref
      constructor
      · rw [heap_write_read_ne _ _ _ _ (by rw [haddr]; omega), hbound]
        exact heap_alloc_read h _ recAddr hrec
      · rw [heap_write_read_ne _ _ _ _ (by rw [haddr]; omega), hbound]
        exact heap_alloc_read h _ imaskAddr himask
  · constructor
    · unfold get_masked_ref
      rw [if_neg (by rintro ⟨h1, _⟩; exact absurd h1 (by simp))]
    · unfold get_masked_ref
      rw [if_neg (by rintro ⟨h1, _⟩; exact absurd h1 (by simp))]

/-- Two-cell store for the `claim_C9_amended` witness: the domain reference
at address 0, the caller's recarray at address 1. -/
def heapC9w : Heap :=
  ⟨[[⟨0, 0, 0, 0, 0, 0, 1⟩], [⟨0, 0, 0, 0, 0, 0, 7⟩]]⟩

theorem claim_C9_amended_witness :
    (1 : Nat) < heapC9w.cells.length ∧ (0 : Nat) < heapC9w.cells.length ∧
    lowerName "permh" ≠ "imask" ∧
    (((get_masked_ref true "permh" 0 heapC9w 1).2 ≠ 1 ∧
     (get_masked_ref true "permh" 0 heapC9w 1).2 ≠ 0 ∧
     (get_masked_ref true "permh" 0 heapC9w 1).1.read 1 = heapC9w.read 1 ∧
     (∀ v, (set_data_num_ref (get_masked_ref true "permh" 0 heapC9w 1).1
              (get_masked_ref true "permh" 0 heapC9w 1).2 v).read 1
            = heapC9w.read 1 ∧
           (set_data_num_ref (get_masked_ref true "permh" 0 heapC9w 1).1
              (get_masked_ref true "permh" 0 heapC9w 1).2 v).read 0
            = heapC9w.read 0)) ∧
    ((get_masked_ref false "permh" 0 heapC9w 1).1 = heapC9w ∧
     (get_masked_ref false "permh" 0 heapC9w 1).2 = 1)) :=
  ⟨by decide, by decide, by decide,
    claim_C9_amended heapC9w "permh" 0 1 (by decide) (by decide) (by decide)⟩

theorem claim_C6_amended_witness :
    (indexerC6.filter (fun e => e.field == "CHARGE")).isEmpty = false ∧
    (∃ k, k ∈ [0, 1, 999] ∧ k ∈ (indexerC6.filter
      (fun e => e.field == "CHARGE")).map ChasimEntry.istep) ∧
    (∃ res, load_field imaskC6 indexerC6 "CHARGE" (some [0, 1, 999])
        = .ok res ∧
      res.map Prod.fst = npUnique ((indexerC6.filter (fun e =>
        e.field == "CHARGE" && decide (e.istep ∈ [0, 1, 999]))).map
          ChasimEntry.istep)) :=
  ⟨rfl, ⟨0, by decide, by decide⟩,
    (claim_C6_amended imaskC6 indexerC6 "CHARGE" (some [0, 1, 999])).2.1
      [0, 1, 999] rfl rfl ⟨0, by decide, by decide⟩⟩

/-! ### Canonical tables: complete rectangular (layer, inest) blocks

A "complete rectangle" block, as the spec's round-trip contract demands, is
the row-major expansion of a dense `nrow x ncol` array with strictly
increasing column centers `xs` and strictly decreasing row centers `ys`
(row 0 is the northernmost row).  `mkBlock` is exactly
`MartheGrid.to_records` of such a grid, and `canonTable` lays the blocks of
all (nest, layer) pairs out in the order `to_grids` iterates them. -/

/-- The row-major flat rows of one complete rectangular block. -/
def mkBlock (l n : Nat) (xs ys : List ℚ) (vals : List (List ℚ)) : List Row :=
  (List.range ys.length).flatMap (fun r =>
    (List.range xs.length).map (fun c =>
      ⟨l, n, r, c, xs.getD c 0, ys.getD r 0, (vals.getD r []).getD c 0⟩))

/-- All (nest, layer) pairs, nest-major — the iteration order of
`to_grids`. -/
def pairProd (ns ls : List Nat) : List (Nat × Nat) :=
  ns.flatMap (fun n => ls.map (fun l => (n, l)))

/-- A table of complete rectangular blocks, one per (nest, layer) pair. -/
def canonTable (ns ls : List Nat) (X Y : Nat → Nat → List ℚ)
    (V : Nat → Nat → List (List ℚ)) : List Row :=
  (pairProd ns ls).flatMap (fun p =>
    mkBlock p.2 p.1 (X p.1 p.2) (Y p.1 p.2) (V p.1 p.2))

/-- The grid `_rec2grid` rebuilds for one (nest, layer) pair of a canonical
table. -/
def canonGrid (fieldName : String) (X Y : Nat → Nat → List ℚ)
    (V : Nat → Nat → List (List ℚ)) (p : Nat × Nat) : MartheGrid :=
  let xs := X p.1 p.2
  let ys := Y p.1 p.2
  let vals := V p.1 p.2
  let gx := ((npGradient xs).getD []).map abs
  let gy := ((npGradient ys).getD []).map abs
  ⟨-9999, p.2, p.1, vals.length, (vals.headD []).length,
    xs.getD 0 0 - gx.getD 0 0 / 2,
    ys.getLast?.getD 0 - gy.getLast?.getD 0 / 2,
    gx, gy, xs, ys, vals, fieldName⟩

theorem mem_mkBlock {l n : Nat} {xs ys : List ℚ} {vals : List (List ℚ)}
    {r : Row} :
    r ∈ mkBlock l n xs ys vals ↔ ∃ a b, a < ys.length ∧ b < xs.length ∧
      r = ⟨l, n, a, b, xs.getD b 0, ys.getD a 0, (vals.getD a []).getD b 0⟩ := by
  unfold mkBlock
  simp only [List.mem_flatMap, List.mem_map, List.mem_range]
  constructor
  · rintro ⟨a, ha, b, hb, rfl⟩
    exact ⟨a, b, ha, hb, rfl⟩
  · rintro ⟨a, b, ha, hb, rfl⟩
    exact ⟨a, ha, b, hb, rfl⟩

theorem mkBlock_length (l n : Nat) (xs ys : List ℚ) (vals : List (List ℚ)) :
    (mkBlock l n xs ys vals).length = ys.length * xs.length := by
  unfold mkBlock
  rw [List.length_flatMap]
  simp only [Function.comp_def, List.length_map, List.length_range]
  rw [show (List.range ys.length).map (fun _ => xs.length)
        = List.replicate ys.length xs.length by
      have := List.map_const (List.range ys.length) xs.length
      simp only [List.length_range] at this
      exact this]
  simp [List.sum_replicate, smul_eq_mul, Nat.mul_comm]

theorem map_getD_range_len {α : Type} (l : List α) (d : α) :
    (List.range l.length).map (fun k => l.getD k d) = l := by
  apply List.ext_getElem
  · simp
  · intro k h1 h2
    simp only [List.getElem_map, List.getElem_range]
    exact List.getD_eq_getElem l d (by simpa using h1)

theorem getD_mem {α : Type} (l : List α) (n : Nat) (d : α)
    (h : n < l.length) : l.getD n d ∈ l := by
  rw [List.getD_eq_getElem l d h]
  exact List.getElem_mem h

theorem filter_flatMap {α β : Type} (l : List α) (f : α → List β)
    (p : β → Bool) :
    (l.flatMap f).filter p = l.flatMap (fun a => (f a).filter p) := by
  induction l with
  | nil => rfl
  | cons a t ih => simp only [List.flatMap_cons, List.filter_append, ih]

theorem flatMap_eq_single {α β : Type} (l : List α) (f : α → List β) (a : α)
    (ha : a ∈ l) (hnodup : l.Nodup) (hz : ∀ b ∈ l, b ≠ a → f b = []) :
    l.flatMap f = f a := by
  induction l with
  | nil => simp at ha
  | cons c t ih =>
    rw [List.flatMap_cons]
    rcases List.mem_cons.mp ha with rfl | hat
    · have ht : t.flatMap f = [] := by
        rw [List.flatMap_eq_nil_iff]
        intro b hb
        exact hz b (List.mem_cons_of_mem _ hb) (by
          rintro rfl
          exact (List.nodup_cons.mp hnodup).1 hb)
      rw [ht, List.append_nil]
    · have hca : c ≠ a := by
        rintro rfl
        exact (List.nodup_cons.mp hnodup).1 hat
      rw [hz c (List.mem_cons_self c t) hca, List.nil_append]
      exact ih hat (List.nodup_cons.mp hnodup).2
        (fun b hb => hz b (List.mem_cons_of_mem _ hb))

theorem foldl_max_le (l : List Nat) (b m : Nat) (hb : b ≤ m)
    (h : ∀ a ∈ l, a ≤ m) : l.foldl max b ≤ m := by
  induction l generalizing b with
  | nil => exact hb
  | cons c t ih =>
    exact ih (max b c) (max_le hb (h c (List.mem_cons_self c t)))
      (fun a ha => h a (List.mem_cons_of_mem _ ha))

theorem natMax_eq {l : List Nat} {m : Nat} (hub : ∀ a ∈ l, a ≤ m)
    (hmem : m ∈ l) : natMax l = m :=
  le_antisymm (foldl_max_le l 0 m (Nat.zero_le m) hub) (le_natMax hmem)

theorem mkBlock_map_i_max {l n : Nat} {xs ys : List ℚ} {vals : List (List ℚ)}
    (hx : 0 < xs.length) (hy : 0 < ys.length) :
    natMax ((mkBlock l n xs ys vals).map Row.i) = ys.length - 1 := by
  apply natMax_eq
  · intro a ha
    rw [List.mem_map] at ha
    obtain ⟨r, hr, rfl⟩ := ha
    obtain ⟨a', b', ha', hb', rfl⟩ := mem_mkBlock.mp hr
    exact Nat.le_sub_one_of_lt ha'
  · rw [List.mem_map]
    exact ⟨⟨l, n, ys.length - 1, 0, xs.getD 0 0, ys.getD (ys.length - 1) 0,
      (vals.getD (ys.length - 1) []).getD 0 0⟩,
      mem_mkBlock.mpr ⟨ys.length - 1, 0, by omega, hx, rfl⟩, rfl⟩

theorem mkBlock_map_j_max {l n : Nat} {xs ys : List ℚ} {vals : List (List ℚ)}
    (hx : 0 < xs.length) (hy : 0 < ys.length) :
    natMax ((mkBlock l n xs ys vals).map Row.j) = xs.length - 1 := by
  apply natMax_eq
  · intro a ha
    rw [List.mem_map] at ha
    obtain ⟨r, hr, rfl⟩ := ha
    obtain ⟨a', b', ha', hb', rfl⟩ := mem_mkBlock.mp hr
    exact Nat.le_sub_one_of_lt hb'
  · rw [List.mem_map]
    exact ⟨⟨l, n, 0, xs.length - 1, xs.getD (xs.length - 1) 0, ys.getD 0 0,
      (vals.getD 0 []).getD (xs.length - 1) 0⟩,
      mem_mkBlock.mpr ⟨0, xs.length - 1, hy, by omega, rfl⟩, rfl⟩

theorem mkBlock_map_value {l n : Nat} {xs ys : List ℚ} {vals : List (List ℚ)}
    (hlen : vals.length = ys.length)
    (hrect : ∀ row ∈ vals, row.length = xs.length) :
    (mkBlock l n xs ys vals).map Row.value = vals.flatten := by
  unfold mkBlock
  rw [List.map_flatMap]
  have h1 : ∀ a ∈ List.range ys.length,
      ((List.range xs.length).map (fun c =>
        (⟨l, n, a, c, xs.getD c 0, ys.getD a 0,
          (vals.getD a []).getD c 0⟩ : Row))).map Row.value
        = vals.getD a [] := by
    intro a ha
    rw [List.map_map]
    have hrow : (vals.getD a []).length = xs.length :=
      hrect _ (getD_mem _ _ _ (by rw [hlen]; exact List.mem_range.mp ha))
    have : (List.range xs.length).map (Row.value ∘ fun c =>
        (⟨l, n, a, c, xs.getD c 0, ys.getD a 0,
          (vals.getD a []).getD c 0⟩ : Row))
        = (List.range (vals.getD a []).length).map
            (fun c => (vals.getD a []).getD c 0) := by
      rw [hrow]
      rfl
    rw [this, map_getD_range_len]
  rw [List.flatMap_def, List.map_congr_left h1, ← hlen, map_getD_range_len]

theorem mkBlock_mem_x_iff {l n : Nat} {xs ys : List ℚ} {vals : List (List ℚ)}
    (hy : 0 < ys.length) (a : ℚ) :
    a ∈ (mkBlock l n xs ys vals).map Row.x ↔ a ∈ xs := by
  rw [List.mem_map]
  constructor
  · rintro ⟨r, hr, rfl⟩
    obtain ⟨a', b', ha', hb', rfl⟩ := mem_mkBlock.mp hr
    exact getD_mem _ _ _ hb'
  · intro hax
    obtain ⟨b, hb, rfl⟩ := List.mem_iff_getElem.mp hax
    exact ⟨⟨l, n, 0, b, xs.getD b 0, ys.getD 0 0, (vals.getD 0 []).getD b 0⟩,
      mem_mkBlock.mpr ⟨0, b, hy, hb, rfl⟩, List.getD_eq_getElem xs 0 hb⟩

theorem mkBlock_mem_y_iff {l n : Nat} {xs ys : List ℚ} {vals : List (List ℚ)}
    (hx : 0 < xs.length) (a : ℚ) :
    a ∈ (mkBlock l n xs ys vals).map Row.y ↔ a ∈ ys := by
  rw [List.mem_map]
  constructor
  · rintro ⟨r, hr, rfl⟩
    obtain ⟨a', b', ha', hb', rfl⟩ := mem_mkBlock.mp hr
    exact getD_mem _ _ _ ha'
  · intro hay
    obtain ⟨b, hb, rfl⟩ := List.mem_iff_getElem.mp hay
    exact ⟨⟨l, n, b, 0, xs.getD 0 0, ys.getD b 0, (vals.getD b []).getD 0 0⟩,
      mem_mkBlock.mpr ⟨b, 0, hb, hx, rfl⟩, List.getD_eq_getElem ys 0 hb⟩

theorem mkBlock_filter_pair_self (l n : Nat) (xs ys : List ℚ)
    (vals : List (List ℚ)) :
    ((mkBlock l n xs ys vals).filter (fun r => r.layer == l)).filter
        (fun r => r.inest == n) = mkBlock l n xs ys vals := by
  have h1 : (mkBlock l n xs ys vals).filter (fun r => r.layer == l)
      = mkBlock l n xs ys vals := by
    apply List.filter_eq_self.mpr
    intro r hr
    obtain ⟨a, b, _, _, rfl⟩ := mem_mkBlock.mp hr
    simp
  rw [h1]
  apply List.filter_eq_self.mpr
  intro r hr
  obtain ⟨a, b, _, _, rfl⟩ := mem_mkBlock.mp hr
  simp

theorem mkBlock_filter_pair_ne (l n l' n' : Nat) (xs ys : List ℚ)
    (vals : List (List ℚ)) (h : ¬(n' = n ∧ l' = l)) :
    ((mkBlock l n xs ys vals).filter (fun r => r.layer == l')).filter
        (fun r => r.inest == n') = [] := by
  rw [List.filter_filter, List.filter_eq_nil_iff]
  intro r hr
  obtain ⟨a, b, _, _, rfl⟩ := mem_mkBlock.mp hr
  simp only [Bool.and_eq_true, beq_iff_eq]
  rintro ⟨h1, h2⟩
  exact h ⟨h1.symm, h2.symm⟩

theorem getD_append_left (l1 l2 : List ℚ) (k : Nat) (h : k < l1.length)
    (d : ℚ) : (l1 ++ l2).getD k d = l1.getD k d := by
  simp [List.getD_eq_getElem?_getD, List.getElem?_append, h]

theorem getD_append_right2 (l1 l2 : List ℚ) (k : Nat) (d : ℚ) :
    (l1 ++ l2).getD (l1.length + k) d = l2.getD k d := by
  simp [List.getD_eq_getElem?_getD,
    List.getElem?_append_right (by omega : l1.length ≤ l1.length + k)]

theorem chunks_flatten (vals : List (List ℚ)) (ncol : Nat)
    (hrect : ∀ row ∈ vals, row.length = ncol) :
    (List.range vals.length).map (fun r => (List.range ncol).map
      (fun c => vals.flatten.getD (r * ncol + c) 0)) = vals := by
  induction vals with
  | nil => rfl
  | cons hd tl ih =>
    have hhd : hd.length = ncol := hrect hd (List.mem_cons_self hd tl)
    simp only [List.length_cons, List.range_succ_eq_map, List.map_cons,
      List.map_map, List.flatten_cons]
    congr 1
    · have hpt : ∀ c ∈ List.range ncol,
          (hd ++ tl.flatten).getD (0 * ncol + c) 0 = hd.getD c 0 := by
        intro c hc
        rw [Nat.zero_mul, Nat.zero_add]
        exact getD_append_left hd tl.flatten c
          (by rw [hhd]; exact List.mem_range.mp hc) 0
      rw [List.map_congr_left hpt, ← hhd, map_getD_range_len]
    · have hcong : ∀ r ∈ List.range tl.length,
          ((fun r => List.map (fun c => (hd ++ tl.flatten).getD (r * ncol + c) 0)
            (List.range ncol)) ∘ Nat.succ) r
            = List.map (fun c => tl.flatten.getD (r * ncol + c) 0)
                (List.range ncol) := by
        intro r _
        simp only [Function.comp_apply]
        apply List.map_congr_left
        intro c _
        have harith : Nat.succ r * ncol + c = hd.length + (r * ncol + c) := by
          rw [hhd, Nat.succ_mul]
          omega
        rw [harith]
        exact getD_append_right2 hd tl.flatten (r * ncol + c) 0
      rw [List.map_congr_left hcong]
      exact ih (fun row hrow => hrect row (List.mem_cons_of_mem _ hrow))

/-- Reshaping a complete rectangular block returns its dense array. -/
theorem reshapeGroup_mkBlock {l n : Nat} {xs ys : List ℚ}
    {vals : List (List ℚ)} (hx : 0 < xs.length) (hy : 0 < ys.length)
    (hlen : vals.length = ys.length)
    (hrect : ∀ row ∈ vals, row.length = xs.length) :
    reshapeGroup (mkBlock l n xs ys vals) = some vals := by
  have hne : ¬(mkBlock l n xs ys vals).isEmpty = true := by
    rw [List.isEmpty_iff]
    intro hnil
    have := mkBlock_length l n xs ys vals
    rw [hnil] at this
    simp only [List.length_nil] at this
    have := this.symm
    rw [Nat.mul_eq_zero] at this
    omega
  unfold reshapeGroup
  rw [if_neg hne]
  dsimp only
  rw [mkBlock_map_i_max hx hy, mkBlock_map_j_max hx hy,
    Nat.sub_add_cancel (by omega), Nat.sub_add_cancel (by omega)]
  rw [if_pos (by rw [List.length_map, mkBlock_length])]
  rw [mkBlock_map_value hlen hrect]
  rw [show List.range ys.length = List.range vals.length by rw [hlen]]
  rw [chunks_flatten vals xs.length hrect]

theorem mem_pairProd {ns ls : List Nat} {p : Nat × Nat} :
    p ∈ pairProd ns ls ↔ p.1 ∈ ns ∧ p.2 ∈ ls := by
  unfold pairProd
  simp only [List.mem_flatMap, List.mem_map]
  constructor
  · rintro ⟨n, hn, l, hl, rfl⟩
    exact ⟨hn, hl⟩
  · rintro ⟨h1, h2⟩
    exact ⟨p.1, h1, p.2, h2, Prod.ext rfl rfl⟩

theorem pairProd_nodup {ns ls : List Nat} (h1 : ns.Nodup) (h2 : ls.Nodup) :
    (pairProd ns ls).Nodup :=
  List.Nodup.product h1 h2

theorem pairProd_length (ns ls : List Nat) :
    (pairProd ns ls).length = ns.length * ls.length := by
  unfold pairProd
  rw [List.length_flatMap]
  simp only [Function.comp_def, List.length_map]
  rw [show ns.map (fun _ => ls.length) = List.replicate ns.length ls.length by
      have := List.map_const ns ls.length
      exact this]
  simp [List.sum_replicate, smul_eq_mul]

/-- Selecting one (layer, inest) pair of a canonical table yields exactly its
block. -/
theorem canonTable_group (ns ls : List Nat) (X Y : Nat → Nat → List ℚ)
    (V : Nat → Nat → List (List ℚ)) (hns : ns.Nodup) (hls : ls.Nodup)
    {n l : Nat} (hn : n ∈ ns) (hl : l ∈ ls) :
    ((canonTable ns ls X Y V).filter (fun r => r.layer == l)).filter
        (fun r => r.inest == n) = mkBlock l n (X n l) (Y n l) (V n l) := by
  unfold canonTable
  rw [filter_flatMap, filter_flatMap]
  rw [flatMap_eq_single _ _ (n, l) (mem_pairProd.mpr ⟨hn, hl⟩)
      (pairProd_nodup hns hls) ?_]
  · exact mkBlock_filter_pair_self l n (X n l) (Y n l) (V n l)
  · intro p hp hne
    apply mkBlock_filter_pair_ne
    rintro ⟨e1, e2⟩
    exact hne (Prod.ext e1.symm e2.symm)

theorem canonTable_mem_inest (ns ls : List Nat) (X Y : Nat → Nat → List ℚ)
    (V : Nat → Nat → List (List ℚ)) (hls : ls ≠ [])
    (hpos : ∀ n ∈ ns, ∀ l ∈ ls, 0 < (X n l).length ∧ 0 < (Y n l).length)
    (a : Nat) :
    a ∈ (canonTable ns ls X Y V).map Row.inest ↔ a ∈ ns := by
  unfold canonTable
  rw [List.map_flatMap]
  simp only [List.mem_flatMap]
  constructor
  · rintro ⟨p, hp, hmem⟩
    rw [List.mem_map] at hmem
    obtain ⟨r, hr, rfl⟩ := hmem
    obtain ⟨a', b', _, _, rfl⟩ := mem_mkBlock.mp hr
    exact (mem_pairProd.mp hp).1
  · intro ha
    obtain ⟨l0, hl0⟩ := List.exists_mem_of_ne_nil ls hls
    obtain ⟨hx, hy⟩ := hpos a ha l0 hl0
    refine ⟨(a, l0), mem_pairProd.mpr ⟨ha, hl0⟩, ?_⟩
    rw [List.mem_map]
    exact ⟨⟨l0, a, 0, 0, (X a l0).getD 0 0, (Y a l0).getD 0 0,
      ((V a l0).getD 0 []).getD 0 0⟩,
      mem_mkBlock.mpr ⟨0, 0, hy, hx, rfl⟩, rfl⟩

theorem canonTable_mem_layer (ns ls : List Nat) (X Y : Nat → Nat → List ℚ)
    (V : Nat → Nat → List (List ℚ)) (hns : ns ≠ [])
    (hpos : ∀ n ∈ ns, ∀ l ∈ ls, 0 < (X n l).length ∧ 0 < (Y n l).length)
    (a : Nat) :
    a ∈ (canonTable ns ls X Y V).map Row.layer ↔ a ∈ ls := by
  unfold canonTable
  rw [List.map_flatMap]
  simp only [List.mem_flatMap]
  constructor
  · rintro ⟨p, hp, hmem⟩
    rw [List.mem_map] at hmem
    obtain ⟨r, hr, rfl⟩ := hmem
    obtain ⟨a', b', _, _, rfl⟩ := mem_mkBlock.mp hr
    exact (mem_pairProd.mp hp).2
  · intro ha
    obtain ⟨n0, hn0⟩ := List.exists_mem_of_ne_nil ns hns
    obtain ⟨hx, hy⟩ := hpos n0 hn0 a ha
    refine ⟨(n0, a), mem_pairProd.mpr ⟨hn0, ha⟩, ?_⟩
    rw [List.mem_map]
    exact ⟨⟨a, n0, 0, 0, (X n0 a).getD 0 0, (Y n0 a).getD 0 0,
      ((V n0 a).getD 0 []).getD 0 0⟩,
      mem_mkBlock.mpr ⟨0, 0, hy, hx, rfl⟩, rfl⟩

theorem get_data_rec_pair (data : List Row) (l n : Nat) :
    get_data_rec data (some [l]) (some [n]) []
      = (data.filter (fun r => r.layer == l)).filter (fun r => r.inest == n) := by
  rw [get_data_rec_eq_filter, List.filter_filter]
  apply List.filter_congr
  intro r _
  rw [Bool.eq_iff_iff]
  simp [resolveIds, List.mem_singleton, and_comm]

theorem block_xcc {l n : Nat} {xs ys : List ℚ} {vals : List (List ℚ)}
    (hy : 0 < ys.length) (hxs : xs.Sorted (· < ·)) :
    npUnique ((mkBlock l n xs ys vals).map Row.x) = xs :=
  npUnique_eq_of_sorted hxs (fun a => mkBlock_mem_x_iff hy a)

theorem block_ycc {l n : Nat} {xs ys : List ℚ} {vals : List (List ℚ)}
    (hx : 0 < xs.length) (hys : ys.Sorted (· > ·)) :
    (npUnique ((mkBlock l n xs ys vals).map Row.y)).reverse = ys := by
  have h1 : npUnique ((mkBlock l n xs ys vals).map Row.y) = ys.reverse := by
    apply npUnique_eq_of_sorted
    · exact (List.pairwise_reverse).mpr hys
    · intro a
      rw [List.mem_reverse]
      exact mkBlock_mem_y_iff hx a
  rw [h1, List.reverse_reverse]

theorem npGradient_isSome {l : List ℚ} (h : 2 ≤ l.length) :
    ∃ g, npGradient l = some g := by
  unfold npGradient
  rw [if_neg (by omega)]
  exact ⟨_, rfl⟩

/-- `_rec2grid` on a canonical table rebuilds exactly the pair's grid. -/
theorem rec2grid_canon (f : String) (ns ls : List Nat)
    (X Y : Nat → Nat → List ℚ) (V : Nat → Nat → List (List ℚ))
    (hns : ns.Nodup) (hls : ls.Nodup) {n l : Nat} (hn : n ∈ ns) (hl : l ∈ ls)
    (hx2 : 2 ≤ (X n l).length) (hy2 : 2 ≤ (Y n l).length)
    (hxs : (X n l).Sorted (· < ·)) (hys : (Y n l).Sorted (· > ·))
    (hlen : (V n l).length = (Y n l).length)
    (hrect : ∀ row ∈ V n l, row.length = (X n l).length) :
    _rec2grid f (canonTable ns ls X Y V) l n
      = some (canonGrid f X Y V (n, l)) := by
  have hx : 0 < (X n l).length := by omega
  have hy : 0 < (Y n l).length := by omega
  have hgroup := canonTable_group ns ls X Y V hns hls hn hl
  obtain ⟨gx, hgx⟩ := npGradient_isSome hx2
  obtain ⟨gy, hgy⟩ := npGradient_isSome hy2
  unfold _rec2grid
  rw [get_data_array_single, hgroup, reshapeGroup_mkBlock hx hy hlen hrect]
  simp only [Option.map_some', Option.some_bind]
  rw [get_data_rec_pair, hgroup]
  rw [block_xcc hy hxs, block_ycc hx hys]
  rw [hgx, hgy]
  simp only [Option.some_bind, Option.map_some']
  unfold canonGrid
  simp only [hgx, hgy, Option.getD_some]

theorem mapM_some {α β : Type} (l : List α) (f : α → Option β) (g : α → β)
    (h : ∀ a ∈ l, f a = some (g a)) : l.mapM f = some (l.map g) := by
  induction l with
  | nil => rfl
  | cons a t ih =>
    rw [List.mapM_cons, h a (List.mem_cons_self a t),
      ih (fun b hb => h b (List.mem_cons_of_mem _ hb))]
    rfl

/-- `to_grids` on a canonical table: one grid per (nest, layer) pair, in
nest-major ascending order. -/
theorem to_grids_canon (f : String) (ns ls : List Nat)
    (X Y : Nat → Nat → List ℚ) (V : Nat → Nat → List (List ℚ))
    (hns : ns.Sorted (· < ·)) (hls : ls.Sorted (· < ·))
    (hns_ne : ns ≠ []) (hls_ne : ls ≠ [])
    (hok : ∀ n ∈ ns, ∀ l ∈ ls,
      2 ≤ (X n l).length ∧ 2 ≤ (Y n l).length ∧
      (X n l).Sorted (· < ·) ∧ (Y n l).Sorted (· > ·) ∧
      (V n l).length = (Y n l).length ∧
      ∀ row ∈ V n l, row.length = (X n l).length) :
    to_grids f (canonTable ns ls X Y V) none none
      = some ((pairProd ns ls).map (canonGrid f X Y V)) := by
  have hpos : ∀ n ∈ ns, ∀ l ∈ ls, 0 < (X n l).length ∧ 0 < (Y n l).length := by
    intro n hn l hl
    obtain ⟨h1, h2, -⟩ := hok n hn l hl
    omega
  unfold to_grids
  rw [get_data_rec_all]
  dsimp only
  rw [npUnique_eq_of_sorted hns
    (canonTable_mem_inest ns ls X Y V hls_ne hpos)]
  rw [npUnique_eq_of_sorted hls
    (canonTable_mem_layer ns ls X Y V hns_ne hpos)]
  apply mapM_some
  intro p hp
  obtain ⟨hpn, hpl⟩ := mem_pairProd.mp hp
  obtain ⟨h1, h2, h3, h4, h5, h6⟩ := hok p.1 hpn p.2 hpl
  exact rec2grid_canon f ns ls X Y V hns.nodup hls.nodup hpn hpl
    h1 h2 h3 h4 h5 h6

/-- `to_records` of a rebuilt grid is the pair's block again. -/
theorem to_records_canonGrid (f : String) (X Y : Nat → Nat → List ℚ)
    (V : Nat → Nat → List (List ℚ)) (n l : Nat)
    (hy : 0 < (Y n l).length)
    (hlen : (V n l).length = (Y n l).length)
    (hrect : ∀ row ∈ V n l, row.length = (X n l).length) :
    MartheGrid.to_records (canonGrid f X Y V (n, l))
      = mkBlock l n (X n l) (Y n l) (V n l) := by
  have hvne : V n l ≠ [] := by
    intro hnil
    rw [hnil] at hlen
    simp only [List.length_nil] at hlen
    omega
  obtain ⟨v0, vs, hV⟩ := List.exists_cons_of_ne_nil hvne
  have hhead : ((V n l).headD []).length = (X n l).length := by
    rw [hV]
    exact hrect v0 (by rw [hV]; exact List.mem_cons_self v0 vs)
  unfold MartheGrid.to_records canonGrid mkBlock
  dsimp only
  rw [hlen, hhead]

/-- Expanding the rebuilt grids yields the canonical table again. -/
theorem grids2rec_canon (f : String) (ns ls : List Nat)
    (X Y : Nat → Nat → List ℚ) (V : Nat → Nat → List (List ℚ))
    (hok : ∀ n ∈ ns, ∀ l ∈ ls,
      2 ≤ (X n l).length ∧ 2 ≤ (Y n l).length ∧
      (X n l).Sorted (· < ·) ∧ (Y n l).Sorted (· > ·) ∧
      (V n l).length = (Y n l).length ∧
      ∀ row ∈ V n l, row.length = (X n l).length) :
    grids2rec ((pairProd ns ls).map (canonGrid f X Y V))
      = canonTable ns ls X Y V := by
  unfold grids2rec canonTable
  rw [List.map_map]
  rw [show (pairProd ns ls).flatMap (fun p =>
        mkBlock p.2 p.1 (X p.1 p.2) (Y p.1 p.2) (V p.1 p.2))
      = ((pairProd ns ls).map (fun p =>
          mkBlock p.2 p.1 (X p.1 p.2) (Y p.1 p.2) (V p.1 p.2))).flatten
      from List.flatMap_def ..]
  congr 1
  apply List.map_congr_left
  intro p hp
  obtain ⟨hpn, hpl⟩ := mem_pairProd.mp hp
  obtain ⟨h1, h2, h3, h4, h5, h6⟩ := hok p.1 hpn p.2 hpl
  exact to_records_canonGrid f X Y V p.1 p.2 (by omega) h5 h6

/-- A table made of one single complete rectangular block — one row, two
columns — used to refute claim C3 as frozen. -/
def tableC3x : List Row := mkBlock 0 0 [0, 1] [5] [[1, 2]]

/-- Counterexample to claim C3: the round trip is *not* the identity on
every table of complete rectangular (layer, inest) blocks.  `tableC3x` is a
single complete rectangle by the code's own `as_dense` criterion
(`reshapeGroup` succeeds on it), yet `to_grids` fails on it — `np.gradient`
raises on the single-point `ycc` axis — so no table is produced at all. -/
theorem claim_C3_counterexample :
    (∀ r ∈ tableC3x, r.layer = 0 ∧ r.inest = 0) ∧
    reshapeGroup tableC3x = some [[1, 2]] ∧
    to_grids "permh" tableC3x none none = none := by decide

/-- Claim C3 (amended): `grids2rec` after `to_grids` reproduces the table
exactly — values and geometry, exact ℚ equality, hence in particular within
the spec's 1e-9 coordinate tolerance — on tables laid out as consecutive
complete rectangular blocks, one for every pair of the cartesian product of
the distinct nest ids (ascending) and the distinct layer ids (ascending),
with at least two rows and two columns per block (`np.gradient` needs two
points per axis; an absent product pair or a single-point axis makes the
conversion fail instead of round-tripping). -/
theorem claim_C3 (f : String) (ns ls : List Nat)
    (X Y : Nat → Nat → List ℚ) (V : Nat → Nat → List (List ℚ))
    (hns : ns.Sorted (· < ·)) (hls : ls.Sorted (· < ·))
    (hns_ne : ns ≠ []) (hls_ne : ls ≠ [])
    (hok : ∀ n ∈ ns, ∀ l ∈ ls,
      2 ≤ (X n l).length ∧ 2 ≤ (Y n l).length ∧
      (X n l).Sorted (· < ·) ∧ (Y n l).Sorted (· > ·) ∧
      (V n l).length = (Y n l).length ∧
      ∀ row ∈ V n l, row.length = (X n l).length) :
    ∃ gs, to_grids f (canonTable ns ls X Y V) none none = some gs ∧
      grids2rec gs = canonTable ns ls X Y V :=
  ⟨(pairProd ns ls).map (canonGrid f X Y V),
    to_grids_canon f ns ls X Y V hns hls hns_ne hls_ne hok,
    grids2rec_canon f ns ls X Y V hok⟩

/-- A table whose (inest, layer) pairs are {(0,0), (0,1), (1,0)} — nest 1
exists, layer 1 exists, but the pair (1,1) has no rows. -/
def tableC5 : List Row :=
  mkBlock 0 0 [0, 1] [1, 0] [[1, 2], [3, 4]]
    ++ mkBlock 1 0 [0, 1] [1, 0] [[5, 6], [7, 8]]
    ++ mkBlock 0 1 [10, 11] [21, 20] [[9, 1], [2, 3]]

/-- Counterexample to claim C5: `to_grids` iterates the *cartesian product*
of the distinct nest ids and the distinct layer ids, not the pairs present;
on a table where nest 1 and layer 1 both occur but the pair (1, 1) has no
rows, the conversion hits `np.max` of an empty selection and fails instead
of producing one grid per present pair. -/
theorem claim_C5_counterexample :
    (∃ r ∈ tableC5, r.inest = 1 ∧ r.layer = 0) ∧
    (∃ r ∈ tableC5, r.inest = 0 ∧ r.layer = 1) ∧
    (∀ r ∈ tableC5, ¬(r.inest = 1 ∧ r.layer = 1)) ∧
    to_grids "permh" tableC5 none none = none := by decide

/-- Claim C5 (amended): `to_grids` iterates the cartesian product of the
distinct nest ids and the distinct layer ids, not the pairs present; on a
table laid out as consecutive complete rectangular blocks with at least two
rows and two columns per block, one for every product pair, it produces
exactly one Grid Descriptor per pair, iterating nest ids ascending and,
within each nest, layer ids ascending.  When a product pair is absent — or a
block axis has a single point, where `np.gradient` raises — the conversion
fails instead. -/
theorem claim_C5_amended (f : String) (ns ls : List Nat)
    (X Y : Nat → Nat → List ℚ) (V : Nat → Nat → List (List ℚ))
    (hns : ns.Sorted (· < ·)) (hls : ls.Sorted (· < ·))
    (hns_ne : ns ≠ []) (hls_ne : ls ≠ [])
    (hok : ∀ n ∈ ns, ∀ l ∈ ls,
      2 ≤ (X n l).length ∧ 2 ≤ (Y n l).length ∧
      (X n l).Sorted (· < ·) ∧ (Y n l).Sorted (· > ·) ∧
      (V n l).length = (Y n l).length ∧
      ∀ row ∈ V n l, row.length = (X n l).length) :
    ∃ gs, to_grids f (canonTable ns ls X Y V) none none = some gs ∧
      gs.map (fun g => (g.inest, g.layer)) = pairProd ns ls ∧
      gs.length = ns.length * ls.length := by
  refine ⟨(pairProd ns ls).map (canonGrid f X Y V),
    to_grids_canon f ns ls X Y V hns hls hns_ne hls_ne hok, ?_, ?_⟩
  · rw [List.map_map]
    exact List.map_id _
  · rw [List.length_map, pairProd_length]

theorem claim_C3_witness :
    ([0] : List Nat).Sorted (· < ·) ∧ ([0] : List Nat) ≠ [] ∧
    (∀ n ∈ ([0] : List Nat), ∀ l ∈ ([0] : List Nat),
      2 ≤ ((fun _ _ => [(0 : ℚ), 1]) n l).length ∧
      2 ≤ ((fun _ _ => [(1 : ℚ), 0]) n l).length ∧
      ((fun _ _ => [(0 : ℚ), 1]) n l).Sorted (· < ·) ∧
      ((fun _ _ => [(1 : ℚ), 0]) n l).Sorted (· > ·) ∧
      ((fun _ _ => [[(1 : ℚ), 2], [3, 4]]) n l).length
        = ((fun _ _ => [(1 : ℚ), 0]) n l).length ∧
      ∀ row ∈ (fun _ _ => [[(1 : ℚ), 2], [3, 4]]) n l,
        row.length = ((fun _ _ => [(0 : ℚ), 1]) n l).length) ∧
    (∃ gs, to_grids "permh"
        (canonTable [0] [0] (fun _ _ => [0, 1]) (fun _ _ => [1, 0])
          (fun _ _ => [[1, 2], [3, 4]])) none none = some gs ∧
      grids2rec gs = canonTable [0] [0] (fun _ _ => [0, 1])
        (fun _ _ => [1, 0]) (fun _ _ => [[1, 2], [3, 4]])) :=
  ⟨by decide, by decide, by decide,
    claim_C3 "permh" [0] [0] (fun _ _ => [0, 1]) (fun _ _ => [1, 0])
      (fun _ _ => [[1, 2], [3, 4]]) (by decide) (by decide) (by decide)
      (by decide) (by decide)⟩

theorem claim_C5_amended_witness :
    ([0] : List Nat).Sorted (· < ·) ∧ ([0, 1] : List Nat).Sorted (· < ·) ∧
    (∀ n ∈ ([0] : List Nat), ∀ l ∈ ([0, 1] : List Nat),
      2 ≤ ((fun _ _ => [(5 : ℚ), 6]) n l).length ∧
      2 ≤ ((fun _ _ => [(9 : ℚ), 8]) n l).length ∧
      ((fun _ _ => [(5 : ℚ), 6]) n l).Sorted (· < ·) ∧
      ((fun _ _ => [(9 : ℚ), 8]) n l).Sorted (· > ·) ∧
      ((fun _ _ => [[(1 : ℚ), 2], [3, 4]]) n l).length
        = ((fun _ _ => [(9 : ℚ), 8]) n l).length ∧
      ∀ row ∈ (fun _ _ => [[(1 : ℚ), 2], [3, 4]]) n l,
        row.length = ((fun _ _ => [(5 : ℚ), 6]) n l).length) ∧
    (∃ gs, to_grids "charge"
        (canonTable [0] [0, 1] (fun _ _ => [5, 6]) (fun _ _ => [9, 8])
          (fun _ _ => [[1, 2], [3, 4]])) none none = some gs ∧
      gs.map (fun g => (g.inest, g.layer)) = pairProd [0] [0, 1] ∧
      gs.length = ([0] : List Nat).length * ([0, 1] : List Nat).length) :=
  ⟨by decide, by decide, by decide,
    claim_C5_amended "charge" [0] [0, 1] (fun _ _ => [5, 6])
      (fun _ _ => [9, 8]) (fun _ _ => [[1, 2], [3, 4]]) (by decide)
      (by decide) (by decide) (by decide) (by decide)⟩
